import Mathlib

/-!
Verification of the tornasole tensor event store and query engine.

This file gives a shallow embedding, in Lean 4, of the core of the
repository:

* `src/tornasole/core/tensor.py` — the Tensor / Step / ModeSteps query
  engine (`Tornasole` namespace);
* `src/tornasole_core/tfevent/event_file_writer.py` — the IndexWriter /
  EventsWriter / EventFileWriter write pipeline (`TornasoleWriter`
  namespace);
* `src/tornasole/core/access_layer/file.py` — the local-file access layer
  (`TornasoleFile` namespace).

Python dictionaries are embedded as insertion-ordered association lists,
Python exceptions as `Except` results, and in-place mutation as explicit
state passing.  Tensor values are kept abstract (a type parameter `V`),
and the external collaborators (the Blob Store fetch and the pluggable
reduction function) are fields of an explicit environment `Env`.
-/

namespace Tornasole

/-- Association-list lookup, embedding a Python `dict[k]` read
(`None` when the key is absent).  Python dicts preserve insertion order
and hold each key once; the operations below maintain that shape. -/
def assocGet {K A : Type} [DecidableEq K] (m : List (K × A)) (k : K) : Option A :=
  match m with
  | [] => none
  | (k', a) :: rest => if k' = k then some a else assocGet rest k

/-- Association-list update, embedding a Python `dict[k] = a` write:
the value is replaced in place when the key is present, otherwise the
pair is appended (insertion order). -/
def assocSet {K A : Type} [DecidableEq K] (m : List (K × A)) (k : K) (a : A) :
    List (K × A) :=
  match m with
  | [] => [(k, a)]
  | (k', a') :: rest =>
    if k' = k then (k, a) :: rest else (k', a') :: assocSet rest k a

/-- Embedding of `tornasole.core.modes.ModeKeys` (glossary: the training
phase under which a step number is scoped). -/
inductive ModeKeys
  | TRAIN
  | EVAL
  | PREDICT
  | GLOBAL
deriving DecidableEq

/-- Embedding of `StepState` from `src/tornasole/core/tensor.py`. -/
inductive StepState
  | UNAVAILABLE
  | AVAILABLE
  | NOT_YET_AVAILABLE
deriving DecidableEq

/-- Embedding of `TensorLocation` (constructed in
`event_file_writer.py` as `TensorLocation(tname, eventfile, pos, len)`).
Modelled from the spec: `tornasole_core/indexutils.py` is not under
`src/`; §3 of the spec gives the fields
`{tensor_name, file_path, start_offset, length}`, immutable once
created. -/
structure TensorLocation where
  tensorname : String
  event_file_name : String
  start_idx : Nat
  length : Nat
deriving DecidableEq

/-- The external collaborators of the query engine: the Blob Store fetch
(`IndexReader.fetch_tensor_value`, outside the core per the spec) and
the pluggable reduction function (`get_numpy_reduction`; the spec treats
reduction math as `reduce(tensor, kind, abs) -> value`). -/
structure Env (V : Type) where
  fetch_tensor_value : TensorLocation → V
  get_numpy_reduction : String → V → Bool → V

/-- Embedding of class `Step` of `src/tornasole/core/tensor.py`
(lines 64–129): at most one in-memory value, at most one location, a
cache flag, and the two reduction dictionaries keyed by
`(red_name, abs)`. -/
structure Step (V : Type) where
  step_num : Int
  _value : Option V := none
  location : Option TensorLocation := none
  cache : Bool := false
  _reduction_values : List ((String × Bool) × V) := []
  _reduction_locations : List ((String × Bool) × TensorLocation) := []

/-- Embedding of the `Step.value` property (tensor.py lines 75–85): the
in-memory value if set; otherwise `None` when there is no location;
otherwise a Blob Store fetch, retained on the Step iff the Step's cache
flag is set.  Returns the Python return value, the mutated Step, and
the number of Blob Store fetches performed. -/
def Step.valueProp {V : Type} (env : Env V) (s : Step V) :
    Option V × Step V × Nat :=
  match s._value with
  | some v => (some v, s, 0)
  | none =>
    match s.location with
    | none => (none, s, 0)
    | some loc =>
      let v := env.fetch_tensor_value loc
      let s' := if s.cache then { s with _value := some v } else s
      (some v, s', 1)

/-- Embedding of `Step.set_reduction_value` (tensor.py lines 125–126). -/
def Step.set_reduction_value {V : Type} (s : Step V) (red_name : String)
    (ab : Bool) (red_value : V) : Step V :=
  { s with _reduction_values := assocSet s._reduction_values (red_name, ab) red_value }

/-- Embedding of `Step.set_reduction_location` (tensor.py lines 128–129). -/
def Step.set_reduction_location {V : Type} (s : Step V) (red_name : String)
    (ab : Bool) (red_location : TensorLocation) : Step V :=
  { s with _reduction_locations := assocSet s._reduction_locations (red_name, ab) red_location }

/-- Embedding of `Step.reduction_values` (tensor.py lines 95–109): when
no reduction value is in memory, every stored reduction location is
fetched from the Blob Store (each fetched value being retained on the
Step iff the cache flag is set) and the fetched dictionary is returned;
otherwise the in-memory dictionary is returned.  Returns the dictionary,
the mutated Step, and the fetch count. -/
def Step.reduction_values {V : Type} (env : Env V) (s : Step V) :
    List ((String × Bool) × V) × Step V × Nat :=
  if s._reduction_values.isEmpty then
    let fetched := s._reduction_locations.map
      (fun p => (p.1, env.fetch_tensor_value p.2))
    let s' := if s.cache then
        fetched.foldl (fun acc p => Step.set_reduction_value acc p.1.1 p.1.2 p.2) s
      else s
    (fetched, s', s._reduction_locations.length)
  else (s._reduction_values, s, 0)

/-- Embedding of `Step.reduction_value` (tensor.py lines 111–116):
looks `(red_name, abs)` up in the in-memory reduction values, falling
back to `reduction_values()` (which fetches the stored locations) when
none are in memory; `None` when the key is found nowhere. -/
def Step.reduction_value {V : Type} (env : Env V) (s : Step V)
    (red_name : String) (ab : Bool) : Option V × Step V × Nat :=
  if s._reduction_values.isEmpty then
    let r := Step.reduction_values env s
    (assocGet r.1 (red_name, ab), r.2.1, r.2.2)
  else (assocGet s._reduction_values (red_name, ab), s, 0)

/-- Embedding of `Step.reduction_location` (tensor.py lines 121–123). -/
def Step.reduction_location {V : Type} (s : Step V) (red_name : String)
    (ab : Bool) : Option TensorLocation :=
  assocGet s._reduction_locations (red_name, ab)

/-- Embedding of class `ModeSteps` (tensor.py lines 17–61): a mode, the
cache flag handed to every Step it creates, and the dictionary from
step number to Step. -/
structure ModeSteps (V : Type) where
  mode : ModeKeys
  cache : Bool := false
  _steps : List (Int × Step V) := []

/-- Embedding of `ModeSteps.steps` (tensor.py lines 23–26):
`list(self._steps.keys())` sorted ascending (`ts.sort(key=int)`). -/
def ModeSteps.steps {V : Type} (ms : ModeSteps V) : List Int :=
  (ms._steps.map Prod.fst).insertionSort (· ≤ ·)

/-- Embedding of `ModeSteps.has_step` (tensor.py lines 28–29). -/
def ModeSteps.has_step {V : Type} (ms : ModeSteps V) (step_num : Int) : Bool :=
  (assocGet ms._steps step_num).isSome

/-- Embedding of `ModeSteps.set_step_value` (tensor.py lines 31–36):
creates a fresh Step carrying the value when the step is new, otherwise
mutates the existing Step's value in place. -/
def ModeSteps.set_step_value {V : Type} (ms : ModeSteps V) (step_num : Int)
    (value : V) : ModeSteps V :=
  match assocGet ms._steps step_num with
  | none =>
    let fresh : Step V := { step_num := step_num, _value := some value, cache := ms.cache }
    { ms with _steps := assocSet ms._steps step_num fresh }
  | some s =>
    { ms with _steps := assocSet ms._steps step_num ({ s with _value := some value }) }

/-- Embedding of `ModeSteps.set_step_location` (tensor.py lines 38–42):
creates a fresh Step when the step is new (note the source has no
`else`: it then assigns the location again), and in either case assigns
the existing Step's location in place. -/
def ModeSteps.set_step_location {V : Type} (ms : ModeSteps V) (step_num : Int)
    (location : TensorLocation) : ModeSteps V :=
  let ms1 :=
    match assocGet ms._steps step_num with
    | none =>
      let fresh : Step V := { step_num := step_num, location := some location, cache := ms.cache }
      { ms with _steps := assocSet ms._steps step_num fresh }
    | some _ => ms
  match assocGet ms1._steps step_num with
  | some s =>
    { ms1 with _steps := assocSet ms1._steps step_num ({ s with location := some location }) }
  | none => ms1

/-- Embedding of `ModeSteps.set_step_reduction_value` (tensor.py
lines 44–50). -/
def ModeSteps.set_step_reduction_value {V : Type} (ms : ModeSteps V)
    (step_num : Int) (red_name : String) (ab : Bool) (red_value : V) :
    ModeSteps V :=
  let s :=
    match assocGet ms._steps step_num with
    | none => { step_num := step_num, cache := ms.cache : Step V }
    | some s => s
  { ms with _steps := assocSet ms._steps step_num (Step.set_reduction_value s red_name ab red_value) }

/-- Embedding of `ModeSteps.set_step_reduction_location` (tensor.py
lines 52–58). -/
def ModeSteps.set_step_reduction_location {V : Type} (ms : ModeSteps V)
    (step_num : Int) (red_name : String) (ab : Bool)
    (red_location : TensorLocation) : ModeSteps V :=
  let s :=
    match assocGet ms._steps step_num with
    | none => { step_num := step_num, cache := ms.cache : Step V }
    | some s => s
  { ms with _steps := assocSet ms._steps step_num (Step.set_reduction_location s red_name ab red_location) }

/-- Errors of the query engine, embedding the exception taxonomy of
`tornasole.exceptions` as raised by `tensor.py`.  `NoMoreData` carries
the last available step number extracted from its message
(`-1` when no steps exist); `ValueErr` embeds the `ValueError` of
`Tensor._create_mode_step`; `FetchOfNone` embeds the Python crash of
`IndexReader.fetch_tensor_value(None)`; `ReduceOfNone` the crash of
`get_numpy_reduction` applied to a missing value. -/
inductive TQErr
  | StepUnavailable (step_num : Int) (mode : ModeKeys)
  | StepNotYetAvailable (step_num : Int) (mode : ModeKeys)
  | NoMoreData (step_num : Int) (mode : ModeKeys) (last_step : Int)
  | TensorUnavailableForStep (tname : String) (step_num : Int) (mode : ModeKeys)
      (has_reductions : Bool)
  | ValueErr (step_num : Int) (tname : String)
  | FetchOfNone
  | ReduceOfNone
deriving DecidableEq

/-- The narrow Trial interface the query engine calls back into.
Modelled from the spec: the Trial itself (`local_trial.py` /
`s3_trial.py`) is not under `src/`; §4.5 and §9 of the spec list exactly
these collaborator operations (refresh, available steps, the
loaded-all-steps flag, global/mode step translation).
`maybe_refresh` re-scans index logs and is modelled as a function on the
tensor's mode-steps dictionary, since its effect on the tensor is to
populate that dictionary. -/
structure Trial (V : Type) where
  maybe_refresh : List (ModeKeys × ModeSteps V) → List (ModeKeys × ModeSteps V)
  available_steps : ModeKeys → List Int
  loaded_all_steps : Bool
  mode_modestep : Int → ModeKeys × Int
  global_step : ModeKeys → Int → Int

/-- Embedding of `Trial.has_passed_step`.  Modelled from the spec: the
Trial is not under `src/`; §4.5 step 4 specifies the answer as (a)
`UNAVAILABLE` when some step numerically greater than the requested one
has been observed, (b) `AVAILABLE` when the step itself has been
observed, (c) `NOT_YET_AVAILABLE` otherwise, over the observed
(available) step list for the mode. -/
def has_passed_step (avail : List Int) (step_num : Int) : StepState :=
  if step_num ∈ avail then .AVAILABLE
  else if avail.any (fun a => step_num < a) then .UNAVAILABLE
  else .NOT_YET_AVAILABLE

/-- Embedding of class `Tensor` (tensor.py lines 134–331): the mode →
ModeSteps dictionary, the tensor name, the owning Trial, and the
process-wide cache flag. -/
structure Tensor (V : Type) where
  name : String
  trial : Trial V
  cache : Bool
  _mode_steps : List (ModeKeys × ModeSteps V) := []

/-- Embedding of the effect of `self.trial.maybe_refresh(self.name)`:
the trial re-scans index logs and mutates the tensor's mode-steps
dictionary. -/
def Tensor.refreshed {V : Type} (t : Tensor V) : Tensor V :=
  { t with _mode_steps := t.trial.maybe_refresh t._mode_steps }

/-- Embedding of `Tensor._global_steps` (tensor.py lines 150–157):
every mode's step list translated through `trial.global_step`,
collected and sorted ascending. -/
def Tensor._global_steps {V : Type} (t : Tensor V) : List Int :=
  let gs := t._mode_steps.foldl
    (fun acc p => acc ++ (p.2.steps.map (fun s => t.trial.global_step p.1 s))) []
  gs.insertionSort (· ≤ ·)

/-- Embedding of `Tensor.steps` (tensor.py lines 141–148): refreshes,
then returns the global list for GLOBAL mode, the mode's sorted step
list for a known mode, and `None` for an unknown mode. -/
def Tensor.steps {V : Type} (t : Tensor V) (mode : ModeKeys) : Option (List Int) :=
  let t2 := t.refreshed
  if mode = .GLOBAL then some t2._global_steps
  else
    match assocGet t2._mode_steps mode with
    | some ms => some ms.steps
    | none => none

/-- Embedding of `Tensor._has_mode_step_currently` (tensor.py
lines 174–178). -/
def Tensor._has_mode_step_currently {V : Type} (t : Tensor V) (step_num : Int)
    (mode : ModeKeys) : Bool :=
  match assocGet t._mode_steps mode with
  | some ms => ms.has_step step_num
  | none => false

/-- Embedding of `Tensor._get_step_currently` (tensor.py lines 193–204),
returning the address `(mode, step_num)` of the Step inside the
mode-steps dictionary (the source returns the Step object itself, whose
later in-place mutation is visible through the dictionary; the address
makes that aliasing explicit). -/
def Tensor._get_step_currently {V : Type} (t : Tensor V) (step_num : Int)
    (mode : ModeKeys) : Option (ModeKeys × Int) :=
  let inGlobal : Bool :=
    match assocGet t._mode_steps .GLOBAL with
    | some ms => ms.has_step step_num
    | none => false
  if mode = .GLOBAL ∧ inGlobal = true then
    some (.GLOBAL, step_num)
  else
    let md := if mode = .GLOBAL then t.trial.mode_modestep step_num
              else (mode, step_num)
    if t._has_mode_step_currently md.2 md.1 then some md else none

/-- The Step at an address inside the mode-steps dictionary. -/
def Tensor.stepAt {V : Type} (t : Tensor V) (addr : ModeKeys × Int) :
    Option (Step V) :=
  (assocGet t._mode_steps addr.1).bind (fun ms => assocGet ms._steps addr.2)

/-- Writes a Step back at an address inside the mode-steps dictionary,
embedding the in-place mutation of the aliased Step object. -/
def Tensor.setStepAt {V : Type} (t : Tensor V) (addr : ModeKeys × Int)
    (s : Step V) : Tensor V :=
  match assocGet t._mode_steps addr.1 with
  | some ms =>
    let ms2 : ModeSteps V := { ms with _steps := assocSet ms._steps addr.2 s }
    { t with _mode_steps := assocSet t._mode_steps addr.1 ms2 }
  | none => t

/-- Embedding of `Tensor.step` (tensor.py lines 206–230): the in-memory
Step if present; otherwise, after a refresh, the Trial classifies the
request, yielding the Step when it became available,
`TensorUnavailableForStep` when the Trial says available but the tensor
has no Step, `StepUnavailable` when training moved past the step,
`NoMoreData` (with the last available step, `-1` when none) when
training ended, and `StepNotYetAvailable` otherwise.  Returns the
(possibly refreshed) tensor together with the Step's address. -/
def Tensor.step {V : Type} (t : Tensor V) (step_num : Int) (mode : ModeKeys) :
    Except TQErr (Tensor V × ModeKeys × Int) :=
  match t._get_step_currently step_num mode with
  | some addr => .ok (t, addr)
  | none =>
    let t2 := t.refreshed
    match has_passed_step (t2.trial.available_steps mode) step_num with
    | .AVAILABLE =>
      match t2._get_step_currently step_num mode with
      | some addr => .ok (t2, addr)
      | none => .error (.TensorUnavailableForStep t.name step_num mode false)
    | .UNAVAILABLE => .error (.StepUnavailable step_num mode)
    | .NOT_YET_AVAILABLE =>
      if t2.trial.loaded_all_steps then
        .error (.NoMoreData step_num mode
          ((t2.trial.available_steps mode).getLast?.getD (-1)))
      else .error (.StepNotYetAvailable step_num mode)

/-- Embedding of the body of `Tensor.value` after step resolution
(tensor.py lines 235–244).  Each `s.value` read is a `Step.valueProp`
property access (the source reads the property once in the `if` test
and once more in the `return`); the `elif` branch fetches from the
Step's location, retaining the value iff the tensor's cache flag is
set; with neither value nor location, `TensorUnavailableForStep` is
raised with the has-reductions flag (whose computation itself may fetch
stored reduction locations).  Returns the Python result (`.ok none`
would be a silent `None` return), the mutated Step, and the Blob Store
fetch count. -/
def Tensor.valueBody {V : Type} (env : Env V) (cache : Bool) (tname : String)
    (step_num : Int) (mode : ModeKeys) (s : Step V) :
    Except TQErr (Option V) × Step V × Nat :=
  let (v1, s1, n1) := Step.valueProp env s
  match v1 with
  | some _ =>
    let (v2, s2, n2) := Step.valueProp env s1
    (.ok v2, s2, n1 + n2)
  | none =>
    match s1.location with
    | some loc =>
      let v := env.fetch_tensor_value loc
      let s2 := if cache then { s1 with _value := some v } else s1
      (.ok (some v), s2, n1 + 1)
    | none =>
      let (rvs, s2, n2) := Step.reduction_values env s1
      (.error (.TensorUnavailableForStep tname step_num mode (rvs.length > 0)),
       s2, n1 + n2)

/-- Embedding of `Tensor.value` (tensor.py lines 232–244): resolves the
Step via `Tensor.step` (which refreshes), runs the body on the aliased
Step, and writes the mutated Step back.  Returns the result, the
mutated tensor, and the Blob Store fetch count. -/
def Tensor.value {V : Type} (env : Env V) (t : Tensor V) (step_num : Int)
    (mode : ModeKeys) : Except TQErr (Option V) × Tensor V × Nat :=
  match t.step step_num mode with
  | .error e => (.error e, t, 0)
  | .ok (t1, addr) =>
    match t1.stepAt addr with
    | none => (.error (.TensorUnavailableForStep t.name step_num mode false), t1, 0)
    | some s =>
      let (r, s2, n) := Tensor.valueBody env t1.cache t.name step_num mode s
      (r, t1.setStepAt addr s2, n)

/-- Embedding of the body of `Tensor.reduction_value` after step
resolution (tensor.py lines 269–284): (1) `s.reduction_value` (which
itself falls back to fetching all stored reduction locations when no
reduction value is in memory); (2) the stored reduction location,
fetched; (3) otherwise the reduction is computed from the full tensor
value — each `s.value` read being a property access that fetches from
the Step's location and retains the value iff the cache flag is set —
where a Step with neither value nor location makes the source call
`fetch_tensor_value(None)`, a crash embedded as `.error .FetchOfNone`.
Returns the Python result, the mutated Step, and the fetch count. -/
def Tensor.reduction_valueBody {V : Type} (env : Env V) (cache : Bool)
    (reduction_name : String) (ab : Bool) (s : Step V) :
    Except TQErr (Option V) × Step V × Nat :=
  let (rv, s1, n1) := Step.reduction_value env s reduction_name ab
  let rl := Step.reduction_location s1 reduction_name ab
  match rv with
  | some v => (.ok (some v), s1, n1)
  | none =>
    match rl with
    | some loc => (.ok (some (env.fetch_tensor_value loc)), s1, n1 + 1)
    | none =>
      let (sv, s2, n2) := Step.valueProp env s1
      match sv with
      | none =>
        match s2.location with
        | none => (.error .FetchOfNone, s2, n1 + n2)
        | some loc =>
          let v := env.fetch_tensor_value loc
          let s3 := if cache then { s2 with _value := some v } else s2
          (.ok (some (env.get_numpy_reduction reduction_name v ab)), s3, n1 + n2 + 1)
      | some _ =>
        let (sv2, s3, n3) := Step.valueProp env s2
        match sv2 with
        | some v =>
          (.ok (some (env.get_numpy_reduction reduction_name v ab)), s3, n1 + n2 + n3)
        | none => (.error .ReduceOfNone, s3, n1 + n2 + n3)

/-- Embedding of `Tensor.reduction_value` (tensor.py lines 253–284):
resolves the Step via `Tensor.step`, runs the four-tier body on the
aliased Step, and writes the mutated Step back. -/
def Tensor.reduction_value {V : Type} (env : Env V) (t : Tensor V)
    (step_num : Int) (reduction_name : String) (mode : ModeKeys) (ab : Bool) :
    Except TQErr (Option V) × Tensor V × Nat :=
  match t.step step_num mode with
  | .error e => (.error e, t, 0)
  | .ok (t1, addr) =>
    match t1.stepAt addr with
    | none => (.error (.TensorUnavailableForStep t.name step_num mode false), t1, 0)
    | some s =>
      let (r, s2, n) := Tensor.reduction_valueBody env t1.cache reduction_name ab s
      (r, t1.setStepAt addr s2, n)

/-- Embedding of `Tensor._create_mode_step` (tensor.py lines 286–292):
rejects negative mode steps with a `ValueError`, and creates the mode's
ModeSteps (carrying the tensor's cache flag) when absent. -/
def Tensor._create_mode_step {V : Type} (t : Tensor V) (mode : ModeKeys)
    (mode_step : Int) : Except TQErr (Tensor V) :=
  if mode_step < 0 then .error (.ValueErr mode_step t.name)
  else
    match assocGet t._mode_steps mode with
    | some _ => .ok t
    | none =>
      .ok { t with _mode_steps := assocSet t._mode_steps mode ⟨mode, t.cache, []⟩ }

/-- Embedding of `Tensor.add_step` (tensor.py lines 294–296). -/
def Tensor.add_step {V : Type} (t : Tensor V) (mode : ModeKeys)
    (mode_step : Int) (value : V) : Except TQErr (Tensor V) :=
  (t._create_mode_step mode mode_step).map fun t1 =>
    match assocGet t1._mode_steps mode with
    | some ms =>
      { t1 with _mode_steps := assocSet t1._mode_steps mode (ms.set_step_value mode_step value) }
    | none => t1

/-- Embedding of `Tensor.add_step_lazy` (tensor.py lines 303–305). -/
def Tensor.add_step_lazy {V : Type} (t : Tensor V) (mode : ModeKeys)
    (mode_step : Int) (location : TensorLocation) : Except TQErr (Tensor V) :=
  (t._create_mode_step mode mode_step).map fun t1 =>
    match assocGet t1._mode_steps mode with
    | some ms =>
      { t1 with _mode_steps := assocSet t1._mode_steps mode (ms.set_step_location mode_step location) }
    | none => t1

/-- Embedding of `Tensor.add_reduction_step` (tensor.py lines 298–301). -/
def Tensor.add_reduction_step {V : Type} (t : Tensor V) (mode : ModeKeys)
    (mode_step : Int) (red_name : String) (ab : Bool) (red_value : V) :
    Except TQErr (Tensor V) :=
  (t._create_mode_step mode mode_step).map fun t1 =>
    match assocGet t1._mode_steps mode with
    | some ms =>
      { t1 with _mode_steps := assocSet t1._mode_steps mode (ms.set_step_reduction_value mode_step red_name ab red_value) }
    | none => t1

/-- Embedding of `Tensor.add_reduction_step_lazy` (tensor.py
lines 307–310). -/
def Tensor.add_reduction_step_lazy {V : Type} (t : Tensor V) (mode : ModeKeys)
    (mode_step : Int) (red_name : String) (ab : Bool)
    (red_location : TensorLocation) : Except TQErr (Tensor V) :=
  (t._create_mode_step mode mode_step).map fun t1 =>
    match assocGet t1._mode_steps mode with
    | some ms =>
      { t1 with _mode_steps := assocSet t1._mode_steps mode (ms.set_step_reduction_location mode_step red_name ab red_location) }
    | none => t1

/-- Fuel-driven loop of Python's `bisect.bisect_right(a, x)` (the
CPython pure-python implementation: binary search narrowing `[lo, hi)`,
moving `hi` to `mid` when `x < a[mid]` and `lo` past `mid` otherwise).
The fuel only bounds the iteration count so the definition is
structural; `hi - lo` strictly decreases, so fuel `hi - lo` never runs
out. -/
def bisectRightAux (a : List Int) (x : Int) : Nat → Nat → Nat → Nat
  | 0, lo, _ => lo
  | fuel + 1, lo, hi =>
    if lo < hi then
      let mid := (lo + hi) / 2
      if x < a.getD mid 0 then bisectRightAux a x fuel lo mid
      else bisectRightAux a x fuel (mid + 1) hi
    else lo

/-- Embedding of `bisect.bisect_right(a, x)` over the whole list. -/
def bisect_right (a : List Int) (x : Int) : Nat :=
  bisectRightAux a x (a.length + 1) 0 a.length

/-- Python list slice `l[i:]` for a possibly negative index. -/
def pySliceFrom (l : List Int) (i : Int) : List Int :=
  if 0 ≤ i then l.drop i.toNat
  else l.drop (l.length - (-i).toNat)

/-- Embedding of `Tensor.prev_steps` (tensor.py lines 312–331):
`self.steps(mode)` (a crash — `None` here — when the mode is unknown),
the rightmost binary-search insertion point, the prefix up to it, and
`prev_steps[-n:]` exactly when `n` is truthy (`n` not `None` and not
`0`). -/
def Tensor.prev_steps {V : Type} (t : Tensor V) (step : Int) (n : Option Int)
    (mode : ModeKeys) : Option (List Int) :=
  match t.steps mode with
  | none => none
  | some steps =>
    let i := bisect_right steps step
    let prev := steps.take i
    match n with
    | some k => if k ≠ 0 then some (pySliceFrom prev (-k)) else some prev
    | none => some prev


end Tornasole

namespace TornasoleWriter

/-- Left-pad a number with zeros, embedding Python `format(n, '012')` /
`format(n, '04')`. -/
def zfill (n : Nat) (width : Nat) : String :=
  let s := toString n
  String.mk (List.replicate (width - s.length) '0') ++ s

/-- Embedding of `get_event_key_for_step` (event_file_writer.py
lines 61–66): `{run_dir}/events/{step:012d}/{step:012d}_{worker}_{rank:04d}.tfevents`. -/
def get_event_key_for_step (run_dir : String) (step_num : Nat)
    (worker_name : String) (gpu_rank : Nat) : String :=
  let step_num_str := zfill step_num 12
  let gpu_rank_str := zfill gpu_rank 4
  let event_filename :=
    step_num_str ++ "_" ++ worker_name ++ "_" ++ gpu_rank_str ++ ".tfevents"
  run_dir ++ "/events/" ++ step_num_str ++ "/" ++ event_filename

/-- Embedding of `IndexUtil.get_index_key_for_step`.  Modelled from the
spec: `tornasole_core/indexutils.py` is not under `src/`; §6 of the
spec says the index file lives at a parallel path under an
index-specific prefix, one per (run, step, worker, rank). -/
def get_index_key_for_step (run_dir : String) (step_num : Nat)
    (worker_name : String) (gpu_rank : Nat) : String :=
  run_dir ++ "/index/" ++ zfill step_num 12 ++ "_" ++ worker_name ++ "_"
    ++ zfill gpu_rank 4 ++ ".json"

/-- Embedding of `TensorLocation.serialize`.  Modelled from the spec:
`tornasole_core/indexutils.py` is not under `src/`; §6 of the spec says
a TensorLocation serializes to one delimited line
`tensor_name, file_path, start_offset, length`. -/
def serializeLocation (loc : Tornasole.TensorLocation) : String :=
  loc.tensorname ++ "," ++ loc.event_file_name ++ ","
    ++ toString loc.start_idx ++ "," ++ toString loc.length

/-- Operations performed against the Blob Store by the write path, as
an observable trace: opening (creating) a writable handle for the Index
Log, and opening the Record Log. -/
inductive WriterOp
  | openIndexFile (path : String)
  | openRecordFile (path : String)
deriving DecidableEq

/-- State of an open index-log handle: the lines written so far
(`TSAccessFile`/`TSAccessS3` write content, abstracted to the string
appended). -/
structure IndexHandle where
  content : String := ""
deriving DecidableEq

/-- Embedding of class `IndexWriter` (event_file_writer.py
lines 68–102): the file path and the optional open handle. -/
structure IndexWriterSt where
  file_path : String
  writer : Option IndexHandle := none
deriving DecidableEq

/-- Embedding of `IndexWriter.__init__` (event_file_writer.py
lines 69–77): the writer handle is opened immediately at construction
(`TSAccessS3` on an s3 path, `TSAccessFile(path, 'a+')` otherwise; the
backend choice is abstracted into `openIndexFile`).  Returns the state
and the Blob Store operation trace. -/
def IndexWriter.init (file_path : String) : IndexWriterSt × List WriterOp :=
  ({ file_path := file_path, writer := some {} }, [.openIndexFile file_path])

/-- Embedding of `IndexWriter.add_index` (event_file_writer.py
lines 82–90): re-opens the handle when it is `None` (as after `close`),
then appends the serialized location plus a newline. -/
def IndexWriter.add_index (iw : IndexWriterSt) (loc : Tornasole.TensorLocation) :
    IndexWriterSt × List WriterOp :=
  let (iw1, ops) :=
    match iw.writer with
    | none => ({ iw with writer := some {} }, [WriterOp.openIndexFile iw.file_path])
    | some _ => (iw, [])
  match iw1.writer with
  | some h =>
    ({ iw1 with writer := some { content := h.content ++ serializeLocation loc ++ "\n" } },
     ops)
  | none => (iw1, ops)

/-- Embedding of `IndexWriter.close` (event_file_writer.py
lines 97–102): flush then close, leaving the handle `None`; a no-op
when already closed. -/
def IndexWriter.close (iw : IndexWriterSt) : IndexWriterSt :=
  match iw.writer with
  | some _ => { iw with writer := none }
  | none => iw

/-- Embedding of the Record Log writer.  Modelled from the spec:
`tornasole_core/tfrecord/record_writer.py` is not under `src/`; §4.1 of
the spec gives the contract `append(payload) -> (offset, length)` with
length-framed records, `flush()` and `close()`, opened in append-create
mode against the Blob Store. -/
structure RecordWriterSt where
  filename : String
  records : List String := []
deriving DecidableEq

/-- Byte offset at which the next record starts (sum of stored record
lengths). -/
def RecordWriterSt.offset (rw : RecordWriterSt) : Nat :=
  (rw.records.map String.length).sum

/-- Opens the Record Log.  Modelled from the spec: §4.1 (append-create
mode against the Blob Store). -/
def RecordWriter.init (filename : String) : RecordWriterSt × List WriterOp :=
  ({ filename := filename }, [.openRecordFile filename])

/-- Appends one record and returns `(offset, length)`.  Modelled from
the spec: §4.1/§3 (the append returns the start offset and length for
use in a TensorLocation). -/
def RecordWriter.write_record (rw : RecordWriterSt) (payload : String) :
    RecordWriterSt × Nat × Nat :=
  ({ rw with records := rw.records ++ [payload] }, rw.offset, payload.length)

/-- Embedding of class `EventsWriter` (event_file_writer.py
lines 115–194): prefix, identity of the (step, worker, rank), the
lazily-created record writer with its filename, the outstanding-event
counter, and the owned IndexWriter. -/
structure EventsWriterSt where
  file_prefix : String
  step : Nat
  worker : String
  rank : Nat
  _file_suffix : String := ""
  _filename : Option String := none
  tfrecord_writer : Option RecordWriterSt := none
  _num_outstanding_events : Nat := 0
  indexwriter : IndexWriterSt
deriving DecidableEq

/-- Embedding of `EventsWriter.__init__` (event_file_writer.py
lines 120–143): sets `file_prefix = logdir/trial`, leaves the record
writer unopened (`None`), and constructs the IndexWriter — which opens
its handle — at the index key for the step. -/
def EventsWriter.init (logdir trial worker : String) (rank step : Nat) :
    EventsWriterSt × List WriterOp :=
  let fp := logdir ++ "/" ++ trial
  let (iw, ops) := IndexWriter.init (get_index_key_for_step fp step worker rank)
  ({ file_prefix := fp, step := step, worker := worker, rank := rank,
     indexwriter := iw }, ops)

/-- Embedding of `EventsWriter._init_if_needed` (event_file_writer.py
lines 148–154): when the record writer does not exist yet, computes the
event key and opens the RecordWriter there. -/
def EventsWriter._init_if_needed (ew : EventsWriterSt) :
    EventsWriterSt × List WriterOp :=
  match ew.tfrecord_writer with
  | some _ => (ew, [])
  | none =>
    let fname := get_event_key_for_step ( EventsWriterSt.file_prefix ew) ew.step
      ew.worker ew.rank
    let (rw, ops) := RecordWriter.init fname
    ({ ew with _filename := some fname, tfrecord_writer := some rw }, ops)

/-- Embedding of `EventsWriter.init_with_suffix` (event_file_writer.py
lines 156–159): records the suffix and immediately initializes the
record writer. -/
def EventsWriter.init_with_suffix (ew : EventsWriterSt) (file_suffix : String) :
    EventsWriterSt × List WriterOp :=
  EventsWriter._init_if_needed { ew with _file_suffix := file_suffix }

/-- Embedding of `EventsWriter._write_serialized_event`
(event_file_writer.py lines 169–174): lazily initializes the record
writer, bumps the outstanding-event counter, and appends the record,
returning its `(position, length)`. -/
def EventsWriter._write_serialized_event (ew : EventsWriterSt)
    (event_str : String) : EventsWriterSt × (Nat × Nat) × List WriterOp :=
  let (ew1, ops) :=
    match ew.tfrecord_writer with
    | none => EventsWriter._init_if_needed ew
    | some _ => (ew, [])
  match ew1.tfrecord_writer with
  | some rw =>
    let (rw2, pos, len) := RecordWriter.write_record rw event_str
    let ew2 := { ew1 with
      tfrecord_writer := some rw2,
      _num_outstanding_events := ew1._num_outstanding_events + 1 }
    (ew2, (pos, len), ops)
  | none => (ew1, (0, 0), ops)

/-- Embedding of `EventsWriter.flush` (event_file_writer.py
lines 176–184): a no-op when no events are outstanding or the record
writer does not exist; otherwise flushes the record log and resets the
counter (the Record Log flush is content-neutral in this model). -/
def EventsWriter.flush (ew : EventsWriterSt) : EventsWriterSt :=
  if ew._num_outstanding_events = 0 ∨ ew.tfrecord_writer.isNone then ew
  else { ew with _num_outstanding_events := 0 }

/-- Embedding of `EventsWriter.close` (event_file_writer.py
lines 186–191): flush, then close and drop the record writer. -/
def EventsWriter.close (ew : EventsWriterSt) : EventsWriterSt :=
  let ew1 := EventsWriter.flush ew
  match ew1.tfrecord_writer with
  | some _ => { ew1 with tfrecord_writer := none }
  | none => ew1

/-- Items travelling through the Async Write Pipeline queue: a plain
serialized event, an `IndexArgs` pair (event plus tensor name, written
by `write_summary_with_index`), or the terminal sentinel
(`_get_sentinel_event`, recognized by identity in the worker). -/
inductive QItem
  | plain (event_str : String)
  | indexArgs (event_str : String) (tname : String)
  | sentinel
deriving DecidableEq

/-- Embedding of one iteration of `_EventLoggerThread.run` on a
non-sentinel item (event_file_writer.py lines 325–351): write the
event; for an `IndexArgs` item also append a TensorLocation — built
from the returned position/length and the record file name — to the
IndexWriter; then flush the events writer when the wall clock passed
the next flush time (the clock comparison is abstracted into the
`timedFlush` input). -/
def processItem (ew : EventsWriterSt) (item : QItem) (timedFlush : Bool) :
    EventsWriterSt :=
  match item with
  | .sentinel => ew
  | .plain s =>
    let (ew1, _, _) := EventsWriter._write_serialized_event ew s
    if timedFlush then EventsWriter.flush ew1 else ew1
  | .indexArgs s tname =>
    let (ew1, pl, _) := EventsWriter._write_serialized_event ew s
    let loc : Tornasole.TensorLocation :=
      { tensorname := tname, event_file_name := (ew1._filename.getD ""),
        start_idx := pl.1, length := pl.2 }
    let (iw2, _) := IndexWriter.add_index ew1.indexwriter loc
    let ew2 := { ew1 with indexwriter := iw2 }
    if timedFlush then EventsWriter.flush ew2 else ew2

/-- Embedding of the `_EventLoggerThread.run` loop (event_file_writer.py
lines 325–351): dequeue in FIFO order, stop at the sentinel, otherwise
process the item; `clock` supplies the wall-clock flush decisions, one
per processed item. -/
def workerRun (ew : EventsWriterSt) (queue : List QItem) (clock : List Bool) :
    EventsWriterSt :=
  match queue with
  | [] => ew
  | item :: rest =>
    match item with
    | .sentinel => ew
    | _ => workerRun (processItem ew item (clock.headD false)) rest (clock.tail)

/-- Embedding of class `EventFileWriter` (event_file_writer.py
lines 202–307): the Async Write Pipeline state — bounded queue
(capacity abstracted), the owned EventsWriter, the closed flag, and
whether the worker thread is running. -/
structure EventFileWriterSt where
  _logdir : String
  _event_queue : List QItem := []
  _ev_writer : EventsWriterSt
  _flush_secs : Nat
  step : Nat
  _closed : Bool := false
  _workerAlive : Bool := true
deriving DecidableEq

/-- Embedding of `EventFileWriter.__init__` (event_file_writer.py
lines 211–234): constructs the EventsWriter, immediately calls
`init_with_suffix` on it — opening the Record Log —, marks the pipeline
open, and starts the worker.  Returns the state and the Blob Store
operation trace of construction. -/
def EventFileWriter.init (logdir trial worker : String) (rank step : Nat)
    (flush_secs : Nat) (filename_suffix : String) :
    EventFileWriterSt × List WriterOp :=
  let (ew, ops1) := EventsWriter.init logdir trial worker rank step
  let (ew2, ops2) := EventsWriter.init_with_suffix ew filename_suffix
  ({ _logdir := logdir, _ev_writer := ew2, _flush_secs := flush_secs,
     step := step }, ops1 ++ ops2)

/-- Embedding of `EventFileWriter.write_event` (event_file_writer.py
lines 282–285): enqueue unless the pipeline is closed. -/
def EventFileWriter.write_event (p : EventFileWriterSt) (item : QItem) :
    EventFileWriterSt :=
  if p._closed then p
  else { p with _event_queue := p._event_queue ++ [item] }

/-- Embedding of `EventFileWriter.flush` (event_file_writer.py
lines 287–292): `queue.join()` — the worker drains the queue — then an
explicit EventsWriter flush. -/
def EventFileWriter.flushP (p : EventFileWriterSt) (clock : List Bool) :
    EventFileWriterSt :=
  let ew := workerRun p._ev_writer p._event_queue clock
  { p with _event_queue := [], _ev_writer := EventsWriter.flush ew }

/-- Embedding of `EventFileWriter.close` (event_file_writer.py
lines 294–304): when not yet closed, enqueue the sentinel, flush (the
worker drains the queue up to the sentinel and exits), join the worker,
close the IndexWriter, close the EventsWriter, and mark the pipeline
closed. -/
def EventFileWriter.close (p : EventFileWriterSt) (clock : List Bool) :
    EventFileWriterSt :=
  if p._closed then p
  else
    let p1 := EventFileWriter.write_event p .sentinel
    let p2 := EventFileWriter.flushP p1 clock
    let iw := IndexWriter.close p2._ev_writer.indexwriter
    let ew3 := EventsWriter.close { p2._ev_writer with indexwriter := iw }
    { p2 with _ev_writer := ew3, _closed := true, _workerAlive := false }

/-- Embedding of `EventFileWriter.reopen` (event_file_writer.py
lines 241–251): when closed, start a new worker against the same
underlying EventsWriter and mark the pipeline open; nothing otherwise. -/
def EventFileWriter.reopen (p : EventFileWriterSt) : EventFileWriterSt :=
  if p._closed then { p with _workerAlive := true, _closed := false }
  else p

/-- Draining a sentinel-free queue: every item processed in FIFO order
against the EventsWriter.  Used to state what `close` guarantees about
pending writes. -/
def drainAll (ew : EventsWriterSt) (queue : List QItem) (clock : List Bool) :
    EventsWriterSt :=
  match queue with
  | [] => ew
  | item :: rest => drainAll (processItem ew item (clock.headD false)) rest clock.tail

end TornasoleWriter

namespace TornasoleFile

/-- Embedding of Python `os.path.dirname`: the path up to the last
slash, with trailing slashes stripped from the head unless the head is
all slashes. -/
def dirname (p : String) : String :=
  let cs := p.toList
  let idxs := (cs.enum.filter (fun q => q.2 = '/')).map (fun q => q.1)
  match idxs.getLast? with
  | none => ""
  | some i =>
    let head := cs.take (i + 1)
    if head.all (fun c => c = '/') then String.mk head
    else String.mk ((head.reverse.dropWhile (fun c => c = '/')).reverse)

/-- Embedding of `os.path.join('/tmp', s)` as used by `get_temp_path`:
an absolute second component wins, otherwise it is appended after a
slash. -/
def osJoinTmp (s : String) : String :=
  if s.toList.headD ' ' = '/' then s else "/tmp/" ++ s

/-- Embedding of `get_temp_path` (file.py lines 20–28): under the
sagemaker output directory the temp path is the file path plus `.tmp`;
otherwise it is the file path (one leading slash stripped) placed under
`/tmp`.  The constant `DEFAULT_SAGEMAKER_TORNASOLE_PATH` lives in
`json_config.py`, which is not under `src/`, so it is passed as the
parameter `smPath`. -/
def get_temp_path (smPath : String) (file_path : String) : String :=
  let directory := dirname file_path
  if smPath.toList.isPrefixOf directory.toList then file_path ++ ".tmp"
  else
    let fp :=
      if 0 < file_path.length ∧ file_path.toList.headD ' ' = '/' then
        String.mk (file_path.toList.drop 1)
      else file_path
    osJoinTmp fp

/-- Embedding of `WRITE_MODES` (file.py line 31). -/
def WRITE_MODES : List String := ["w", "w+", "wb", "wb+", "a", "a+", "ab", "ab+"]

/-- A local filesystem: an association list from path to file content
(directories are not modelled; `ensure_dir` is a no-op here). -/
def Fs : Type := List (String × String)

/-- Embedding of the Python builtin `open(path, mode)`: a `w` mode
truncates (creates empty), an `a` mode creates-or-keeps, a read mode
touches nothing. -/
def pyOpen (fs : Fs) (path : String) (mode : String) : Fs :=
  if mode.toList.headD ' ' = 'w' then Tornasole.assocSet fs path ""
  else if mode.toList.headD ' ' = 'a' then
    Tornasole.assocSet fs path ((Tornasole.assocGet fs path).getD "")
  else fs

/-- Embedding of class `TSAccessFile` (file.py lines 34–63): the final
path, the mode, the temp path when the mode writes, and the path the
accessor is actually open at. -/
structure TSAccessFileSt where
  path : String
  mode : String
  temp_path : Option String := none
  acc_path : String
deriving DecidableEq

/-- Embedding of `TSAccessFile.__init__` (file.py lines 35–46): in a
write/append mode the accessor opens the temp path; otherwise it opens
the final path. -/
def TSAccessFile.init (smPath : String) (fs : Fs) (path mode : String) :
    TSAccessFileSt × Fs :=
  if mode ∈ WRITE_MODES then
    let tp := get_temp_path smPath path
    ({ path := path, mode := mode, temp_path := some tp, acc_path := tp },
     pyOpen fs tp mode)
  else ({ path := path, mode := mode, acc_path := path }, pyOpen fs path mode)

/-- Embedding of `TSAccessFile.write` (file.py lines 51–55): appends to
the open accessor and returns `[start, length]`. -/
def TSAccessFile.write (st : TSAccessFileSt) (fs : Fs) (str : String) :
    Fs × Nat × Nat :=
  let cur := (Tornasole.assocGet fs st.acc_path).getD ""
  (Tornasole.assocSet fs st.acc_path (cur ++ str), cur.length, str.length)

/-- Removes a path from the filesystem. -/
def fsErase (fs : Fs) (path : String) : Fs :=
  fs.filter (fun q => q.1 ≠ path)

/-- Embedding of `TSAccessFile.close` (file.py lines 60–63): closes the
accessor and, in a write/append mode, `shutil.move`s the temp file onto
the final path. -/
def TSAccessFile.close (st : TSAccessFileSt) (fs : Fs) : Fs :=
  if st.mode ∈ WRITE_MODES then
    match st.temp_path with
    | some tp =>
      (match Tornasole.assocGet fs tp with
       | some content => Tornasole.assocSet (fsErase fs tp) st.path content
       | none => fs)
    | none => fs
  else fs

/-- A sequence of `write` calls folded over the filesystem. -/
def writeFold (st : TSAccessFileSt) (fs : Fs) (ws : List String) : Fs :=
  ws.foldl (fun f w => (TSAccessFile.write st f w).1) fs

/-- The handle state produced by opening `path` in `mode`. -/
def initSt (smPath : String) (fs : Fs) (path mode : String) : TSAccessFileSt :=
  (TSAccessFile.init smPath fs path mode).1

/-- The filesystem right after opening `path` in `mode`. -/
def initFs (smPath : String) (fs : Fs) (path mode : String) : Fs :=
  (TSAccessFile.init smPath fs path mode).2

/-- The filesystem after opening and performing the writes `ws`. -/
def afterWrites (smPath : String) (fs : Fs) (path mode : String)
    (ws : List String) : Fs :=
  writeFold (initSt smPath fs path mode) (initFs smPath fs path mode) ws

/-- The filesystem after opening, writing `ws`, and closing. -/
def afterClose (smPath : String) (fs : Fs) (path mode : String)
    (ws : List String) : Fs :=
  TSAccessFile.close (initSt smPath fs path mode)
    (afterWrites smPath fs path mode ws)

end TornasoleFile

namespace Tornasole

/-- A Blob Store environment over integer tensor values, for concrete
witnesses: a fetch keyed off the stored offset and a simple pluggable
reduction. -/
def env0 : Env Int :=
  ⟨fun loc => (loc.start_idx : Int) + 100, fun _ v ab => if ab then v * 2 else v + 1⟩

/-- A Trial with no observed steps and training still running. -/
def trial0 : Trial Int :=
  ⟨id, fun _ => [], false, fun s => (.TRAIN, s), fun _ s => s⟩

/-- A Trial that observed steps 0 and 2 with training finished. -/
def trialDone : Trial Int :=
  ⟨id, fun _ => [0, 2], true, fun s => (.TRAIN, s), fun _ s => s⟩

/-- A tensor with no recorded steps at all. -/
def baseT : Tensor Int := { name := "w", trial := trial0, cache := false }

/-- A tensor populated with TRAIN steps 0..5 through `add_step`. -/
def tSteps : Tensor Int :=
  [0, 1, 2, 3, 4, 5].foldl
    (fun acc s => ((acc.add_step .TRAIN s (s * 10)).toOption).getD acc) baseT

/-- A concrete stored location. -/
def loc0 : TensorLocation := ⟨"w", "f", 3, 10⟩

/-- A tensor holding only a TensorLocation at TRAIN step 1, with the
given cache flag. -/
def tLoc (c : Bool) : Tensor Int :=
  (({ name := "w", trial := trial0, cache := c : Tensor Int }).add_step_lazy
    .TRAIN 1 loc0).toOption.getD baseT

end Tornasole

namespace Tornasole

theorem assocGet_set_self {K A : Type} [DecidableEq K] (m : List (K × A))
    (k : K) (a : A) : assocGet (assocSet m k a) k = some a := by
  induction m with
  | nil => simp [assocSet, assocGet]
  | cons p rest ih =>
    obtain ⟨k', a'⟩ := p
    by_cases h : k' = k
    · simp [assocSet, assocGet, h]
    · simp [assocSet, assocGet, h, ih]

theorem assocGet_set_ne {K A : Type} [DecidableEq K] (m : List (K × A))
    (k k' : K) (a : A) (h : k' ≠ k) :
    assocGet (assocSet m k a) k' = assocGet m k' := by
  induction m with
  | nil =>
    simp only [assocSet, assocGet]
    rw [if_neg (fun hh => h hh.symm)]
  | cons p rest ih =>
    obtain ⟨k0, a0⟩ := p
    by_cases h0 : k0 = k
    · subst h0
      simp only [assocSet, if_pos rfl, assocGet]
      rw [if_neg (fun hh => h hh.symm), if_neg (fun hh => h hh.symm)]
    · simp only [assocSet, if_neg h0, assocGet]
      by_cases h1 : k0 = k'
      · rw [if_pos h1, if_pos h1]
      · rw [if_neg h1, if_neg h1]
        exact ih

theorem assocSet_same {K A : Type} [DecidableEq K] (m : List (K × A))
    (k : K) (a : A) (h : assocGet m k = some a) : assocSet m k a = m := by
  induction m with
  | nil => simp [assocGet] at h
  | cons p rest ih =>
    obtain ⟨k0, a0⟩ := p
    by_cases h0 : k0 = k
    · subst h0
      simp [assocGet] at h
      simp [assocSet, h]
    · simp [assocGet, h0] at h
      simp [assocSet, h0, ih h]

theorem assocGet_map {K A B : Type} [DecidableEq K] (m : List (K × A))
    (f : A → B) (k : K) :
    assocGet (m.map (fun p => (p.1, f p.2))) k = (assocGet m k).map f := by
  induction m with
  | nil => simp [assocGet]
  | cons p rest ih =>
    obtain ⟨k0, a0⟩ := p
    by_cases h0 : k0 = k
    · simp [assocGet, h0]
    · simp [assocGet, h0, ih]

theorem assocGet_set_isSome {K A : Type} [DecidableEq K] (m : List (K × A))
    (k k' : K) (a b : A) (hmem : assocGet m k = some b) :
    (assocGet (assocSet m k a) k').isSome = (assocGet m k').isSome := by
  by_cases h : k' = k
  · subst h
    rw [assocGet_set_self, hmem]
    rfl
  · rw [assocGet_set_ne _ _ _ _ h]

theorem Tensor.refreshed_trial {V : Type} (t : Tensor V) :
    t.refreshed.trial = t.trial := rfl

theorem Tensor.step_of_mem {V : Type} (t : Tensor V) (S : Int) (M : ModeKeys)
    (addr : ModeKeys × Int) (h : t._get_step_currently S M = some addr) :
    t.step S M = .ok (t, addr) := by
  unfold Tensor.step
  rw [h]

/-- C1: for every tensor and mode, `Tensor.step` classifies a step that
is not in memory (before or after the refresh) and not among the
observed steps as exactly one of three errors: `StepUnavailable` when
some observed step is numerically greater, otherwise `NoMoreData`
carrying the last available step (`-1` when none exist) when
`loaded_all_steps` is true, otherwise `StepNotYetAvailable`. -/
theorem C1_step_error_taxonomy {V : Type} (t : Tensor V) (S : Int) (M : ModeKeys)
    (h0 : t._get_step_currently S M = none)
    (h1 : t.refreshed._get_step_currently S M = none)
    (hS : S ∉ t.trial.available_steps M) :
    t.step S M = .error
      (if (t.trial.available_steps M).any (fun a => S < a) then
        TQErr.StepUnavailable S M
       else if t.trial.loaded_all_steps then
        TQErr.NoMoreData S M ((t.trial.available_steps M).getLast?.getD (-1))
       else TQErr.StepNotYetAvailable S M) := by
  unfold Tensor.step
  rw [h0]
  show (match has_passed_step (t.refreshed.trial.available_steps M) S with
    | StepState.AVAILABLE => _
    | StepState.UNAVAILABLE => _
    | StepState.NOT_YET_AVAILABLE => _) = _
  rw [Tensor.refreshed_trial]
  unfold has_passed_step
  rw [if_neg hS]
  by_cases hA : (t.trial.available_steps M).any (fun a => S < a) = true
  · rw [if_pos hA, if_pos hA]
  · rw [if_neg hA, if_neg hA]
    by_cases hL : t.trial.loaded_all_steps = true
    · simp only [hL, if_true]
    · simp only [Bool.not_eq_true] at hL
      rw [hL]
      rfl

/-- Witness for C1 at a concrete input: a tensor with no steps in
memory, a finished trial having observed steps 0 and 2, and the request
for step 7 beyond all observed data, yielding `NoMoreData` carrying
last step 2. -/
theorem C1_step_error_taxonomy_witness :
    ({ name := "w", trial := trialDone, cache := false : Tensor Int
      })._get_step_currently 7 .TRAIN = none ∧
    ({ name := "w", trial := trialDone, cache := false : Tensor Int
      }).refreshed._get_step_currently 7 .TRAIN = none ∧
    (7 : Int) ∉ trialDone.available_steps .TRAIN ∧
    ({ name := "w", trial := trialDone, cache := false : Tensor Int
      }).step 7 .TRAIN = .error (.NoMoreData 7 .TRAIN 2) := by
  refine ⟨by decide, by decide, by decide, ?_⟩
  rw [C1_step_error_taxonomy _ 7 .TRAIN (by decide) (by decide) (by decide)]
  rfl


/-- C10: for every ModeSteps already containing a Step at a step
number, `set_step_value` mutates that Step in place replacing only its
value — location and both reduction dictionaries unchanged, other steps
untouched — and symmetrically `set_step_location` replaces only the
location. -/
theorem C10_set_step_frame {V : Type} (ms : ModeSteps V) (k : Int) (v : V)
    (loc : TensorLocation) (s : Step V)
    (h : assocGet ms._steps k = some s) :
    assocGet (ms.set_step_value k v)._steps k = some { s with _value := some v } ∧
    (∀ k', k' ≠ k →
      assocGet (ms.set_step_value k v)._steps k' = assocGet ms._steps k') ∧
    assocGet (ms.set_step_location k loc)._steps k
      = some { s with location := some loc } ∧
    (∀ k', k' ≠ k →
      assocGet (ms.set_step_location k loc)._steps k' = assocGet ms._steps k') := by
  unfold ModeSteps.set_step_value ModeSteps.set_step_location
  simp only [h]
  exact ⟨by rw [assocGet_set_self], fun k' hk => by rw [assocGet_set_ne _ _ _ _ hk],
    by rw [assocGet_set_self], fun k' hk => by rw [assocGet_set_ne _ _ _ _ hk]⟩

/-- A concrete Step holding a location and one reduction entry, for the
C10 witness. -/
def stepW : Step Int :=
  { step_num := 1, location := some loc0,
    _reduction_values := [(("mean", false), 5)],
    _reduction_locations := [(("max", true), loc0)] }

/-- A concrete ModeSteps containing `stepW` at step 1, for the C10
witness. -/
def msW : ModeSteps Int := { mode := .TRAIN, cache := false, _steps := [(1, stepW)] }

/-- Witness for C10 at a concrete input: replacing the value (resp.
location) of the existing Step 1 keeps its location (resp. value) and
reduction entries. -/
theorem C10_set_step_frame_witness :
    assocGet msW._steps 1 = some stepW ∧
    assocGet (msW.set_step_value 1 7)._steps 1
      = some { stepW with _value := some 7 } ∧
    assocGet (msW.set_step_location 1 loc0)._steps 1
      = some { stepW with location := some loc0 } := by
  refine ⟨rfl, ?_, ?_⟩
  · exact (C10_set_step_frame msW 1 7 loc0 stepW rfl).1
  · exact (C10_set_step_frame msW 1 7 loc0 stepW rfl).2.2.1

/-- C4 is refuted at a concrete input: `Tensor.steps` on a tensor with
no recorded TRAIN steps returns `None` rather than raising, and the
`Step.value` property of a Step holding neither value nor location
returns `None`. -/
theorem C4_cex_none_returns :
    Tensor.steps baseT .TRAIN = none ∧
    (Step.valueProp env0 { step_num := 0 : Step Int }).1 = none := by
  exact ⟨rfl, rfl⟩


theorem Tensor.hasMode_setStepAt {V : Type} (t : Tensor V) (addr : ModeKeys × Int)
    (s0 s : Step V) (h : t.stepAt addr = some s0) (k : Int) (m : ModeKeys) :
    (t.setStepAt addr s)._has_mode_step_currently k m
      = t._has_mode_step_currently k m := by
  unfold Tensor.stepAt at h
  cases hms : assocGet t._mode_steps addr.1 with
  | none =>
    rw [hms] at h
    simp at h
  | some ms =>
    rw [hms] at h
    simp only [Option.some_bind] at h
    unfold Tensor.setStepAt
    rw [hms]
    unfold Tensor._has_mode_step_currently
    by_cases hm : m = addr.1
    · subst hm
      rw [assocGet_set_self, hms]
      unfold ModeSteps.has_step
      exact assocGet_set_isSome _ _ _ _ _ h
    · rw [assocGet_set_ne _ _ _ _ hm]

theorem Tensor.setStepAt_trial {V : Type} (t : Tensor V) (addr : ModeKeys × Int)
    (s : Step V) : (t.setStepAt addr s).trial = t.trial := by
  unfold Tensor.setStepAt
  cases assocGet t._mode_steps addr.1 <;> rfl

theorem Tensor.setStepAt_cache {V : Type} (t : Tensor V) (addr : ModeKeys × Int)
    (s : Step V) : (t.setStepAt addr s).cache = t.cache := by
  unfold Tensor.setStepAt
  cases assocGet t._mode_steps addr.1 <;> rfl

theorem Tensor.setStepAt_name {V : Type} (t : Tensor V) (addr : ModeKeys × Int)
    (s : Step V) : (t.setStepAt addr s).name = t.name := by
  unfold Tensor.setStepAt
  cases assocGet t._mode_steps addr.1 <;> rfl

theorem Tensor.stepAt_setStepAt {V : Type} (t : Tensor V) (addr : ModeKeys × Int)
    (s0 s : Step V) (h : t.stepAt addr = some s0) :
    (t.setStepAt addr s).stepAt addr = some s := by
  unfold Tensor.stepAt at h ⊢
  cases hms : assocGet t._mode_steps addr.1 with
  | none =>
    rw [hms] at h
    simp at h
  | some ms =>
    rw [hms] at h
    simp only [Option.some_bind] at h
    unfold Tensor.setStepAt
    rw [hms]
    simp only [assocGet_set_self, Option.some_bind]

theorem Tensor.getCurrently_setStepAt {V : Type} (t : Tensor V)
    (addr : ModeKeys × Int) (s0 s : Step V) (h : t.stepAt addr = some s0)
    (S : Int) (M : ModeKeys) :
    (t.setStepAt addr s)._get_step_currently S M = t._get_step_currently S M := by
  have hg := Tensor.hasMode_setStepAt t addr s0 s h
  have htr := Tensor.setStepAt_trial t addr s
  unfold Tensor._get_step_currently
  simp only [hg, htr]
  have hin := hg S ModeKeys.GLOBAL
  unfold Tensor._has_mode_step_currently at hin
  rw [hin]


theorem Step.valueProp_mem {V : Type} (env : Env V) (s : Step V) (v : V)
    (hv : s._value = some v) : Step.valueProp env s = (some v, s, 0) := by
  unfold Step.valueProp
  rw [hv]

theorem Step.valueProp_loc_cache {V : Type} (env : Env V) (s : Step V)
    (loc : TensorLocation) (hv : s._value = none) (hl : s.location = some loc)
    (hc : s.cache = true) :
    Step.valueProp env s = (some (env.fetch_tensor_value loc),
      { s with _value := some (env.fetch_tensor_value loc) }, 1) := by
  unfold Step.valueProp
  rw [hv, hl, hc]
  rfl

theorem Step.valueProp_loc_nocache {V : Type} (env : Env V) (s : Step V)
    (loc : TensorLocation) (hv : s._value = none) (hl : s.location = some loc)
    (hc : s.cache = false) :
    Step.valueProp env s = (some (env.fetch_tensor_value loc), s, 1) := by
  unfold Step.valueProp
  rw [hv, hl, hc]
  rfl

theorem Tensor.valueBody_mem {V : Type} (env : Env V) (cache : Bool)
    (tname : String) (sn : Int) (m : ModeKeys) (s : Step V) (v : V)
    (hv : s._value = some v) :
    Tensor.valueBody env cache tname sn m s = (.ok (some v), s, 0) := by
  unfold Tensor.valueBody
  simp only [Step.valueProp_mem env s v hv]

theorem Tensor.valueBody_loc_cache {V : Type} (env : Env V)
    (tname : String) (sn : Int) (m : ModeKeys) (s : Step V) (loc : TensorLocation)
    (hv : s._value = none) (hl : s.location = some loc) (hc : s.cache = true) :
    Tensor.valueBody env true tname sn m s
      = (.ok (some (env.fetch_tensor_value loc)),
         { s with _value := some (env.fetch_tensor_value loc) }, 1) := by
  unfold Tensor.valueBody
  simp only [Step.valueProp_loc_cache env s loc hv hl hc,
    Step.valueProp_mem env ({ s with _value := some (env.fetch_tensor_value loc) })
      (env.fetch_tensor_value loc) rfl]

theorem Tensor.valueBody_loc_nocache {V : Type} (env : Env V)
    (tname : String) (sn : Int) (m : ModeKeys) (s : Step V) (loc : TensorLocation)
    (hv : s._value = none) (hl : s.location = some loc) (hc : s.cache = false) :
    Tensor.valueBody env false tname sn m s
      = (.ok (some (env.fetch_tensor_value loc)), s, 2) := by
  unfold Tensor.valueBody
  simp only [Step.valueProp_loc_nocache env s loc hv hl hc]

theorem Tensor.value_of_mem {V : Type} (env : Env V) (t : Tensor V) (S : Int)
    (M : ModeKeys) (addr : ModeKeys × Int) (s : Step V)
    (hres : t._get_step_currently S M = some addr)
    (hstep : t.stepAt addr = some s) :
    Tensor.value env t S M
      = ((Tensor.valueBody env t.cache t.name S M s).1,
         t.setStepAt addr (Tensor.valueBody env t.cache t.name S M s).2.1,
         (Tensor.valueBody env t.cache t.name S M s).2.2) := by
  unfold Tensor.value
  rw [Tensor.step_of_mem t S M addr hres]
  simp only [hstep]


/-- C2 is refuted at a concrete input: with the cache flag false, a
`value()` call on a Step holding only a TensorLocation performs two
Blob Store fetches, not one (the `Step.value` property fetches once in
the `if` test of `Tensor.value` and once more in the `return`), and so
does the consecutive second call. -/
theorem C2_cex_double_fetch :
    (Tensor.value env0 (tLoc false) 1 .TRAIN).2.2 ≠ 1 ∧
    (Tensor.value env0 (tLoc false) 1 .TRAIN).2.2 = 2 ∧
    (Tensor.value env0 (Tensor.value env0 (tLoc false) 1 .TRAIN).2.1
      1 .TRAIN).2.2 = 2 := by
  exact ⟨by decide, by decide, by decide⟩

/-- C2 (amended): for a Tensor whose Step at `(S, M)` holds only a
TensorLocation, with the cache flag true two consecutive `value()`
calls perform exactly one Blob Store fetch in total (1 then 0, the
fetched value being retained on the Step by the first call and returned
by the second); with the cache flag false each of the two consecutive
calls performs exactly two fetches (one for the `Step.value` property
read in the `if` test and one for the `return`), nothing is retained on
the Step, and both calls return the fetched value. -/
theorem C2_cache_fetch_counts {V : Type} (env : Env V) (t : Tensor V) (S : Int)
    (M : ModeKeys) (addr : ModeKeys × Int) (s : Step V) (loc : TensorLocation)
    (hres : t._get_step_currently S M = some addr)
    (hstep : t.stepAt addr = some s)
    (hsc : s.cache = t.cache)
    (hv : s._value = none) (hl : s.location = some loc) :
    (t.cache = true →
      (Tensor.value env t S M).2.2 = 1 ∧
      (Tensor.value env t S M).1 = .ok (some (env.fetch_tensor_value loc)) ∧
      (Tensor.value env (Tensor.value env t S M).2.1 S M).2.2 = 0 ∧
      (Tensor.value env (Tensor.value env t S M).2.1 S M).1
        = .ok (some (env.fetch_tensor_value loc)) ∧
      (Tensor.value env t S M).2.2
        + (Tensor.value env (Tensor.value env t S M).2.1 S M).2.2 = 1 ∧
      ∃ s1, ((Tensor.value env t S M).2.1).stepAt addr = some s1 ∧
        s1._value = some (env.fetch_tensor_value loc)) ∧
    (t.cache = false →
      (Tensor.value env t S M).2.2 = 2 ∧
      (Tensor.value env t S M).1 = .ok (some (env.fetch_tensor_value loc)) ∧
      (Tensor.value env (Tensor.value env t S M).2.1 S M).2.2 = 2 ∧
      (Tensor.value env (Tensor.value env t S M).2.1 S M).1
        = .ok (some (env.fetch_tensor_value loc)) ∧
      ∃ s1, ((Tensor.value env t S M).2.1).stepAt addr = some s1 ∧
        s1._value = none) := by
  have hval := Tensor.value_of_mem env t S M addr s hres hstep
  constructor
  · intro hc
    have hb := Tensor.valueBody_loc_cache env t.name S M s loc hv hl (hsc.trans hc)
    rw [hc] at hval
    rw [hb] at hval
    have hstep1 := Tensor.stepAt_setStepAt t addr s
      ({ s with _value := some (env.fetch_tensor_value loc) }) hstep
    have hres1 := (Tensor.getCurrently_setStepAt t addr s
      ({ s with _value := some (env.fetch_tensor_value loc) }) hstep S M).trans hres
    have hval1 := Tensor.value_of_mem env
      (t.setStepAt addr ({ s with _value := some (env.fetch_tensor_value loc) }))
      S M addr ({ s with _value := some (env.fetch_tensor_value loc) }) hres1 hstep1
    rw [Tensor.valueBody_mem _ _ _ _ _ _ (env.fetch_tensor_value loc) rfl] at hval1
    rw [hval]
    refine ⟨rfl, rfl, ?_, ?_, ?_, ?_⟩
    · rw [hval1]
    · rw [hval1]
    · rw [hval1]
      rfl
    · exact ⟨_, hstep1, rfl⟩
  · intro hc
    have hb := Tensor.valueBody_loc_nocache env t.name S M s loc hv hl (hsc.trans hc)
    rw [hc] at hval
    rw [hb] at hval
    have hstep1 := Tensor.stepAt_setStepAt t addr s s hstep
    have hres1 := (Tensor.getCurrently_setStepAt t addr s s hstep S M).trans hres
    have hval1 := Tensor.value_of_mem env (t.setStepAt addr s) S M addr s hres1 hstep1
    rw [Tensor.setStepAt_cache, Tensor.setStepAt_name, hc] at hval1
    rw [Tensor.valueBody_loc_nocache env t.name S M s loc hv hl (hsc.trans hc)] at hval1
    rw [hval]
    refine ⟨rfl, rfl, ?_, ?_, ?_⟩
    · rw [hval1]
    · rw [hval1]
    · exact ⟨s, hstep1, hv⟩

/-- Witness for C2 (amended) at a concrete input: a cache-enabled
tensor holding only a TensorLocation at TRAIN step 1 fetches once on
the first `value()` call and zero times on the second. -/
theorem C2_cache_fetch_counts_witness :
    (tLoc true)._get_step_currently 1 .TRAIN = some (.TRAIN, 1) ∧
    (Tensor.value env0 (tLoc true) 1 .TRAIN).2.2 = 1 ∧
    (Tensor.value env0 (Tensor.value env0 (tLoc true) 1 .TRAIN).2.1 1 .TRAIN).2.2
      = 0 ∧
    (Tensor.value env0 (tLoc true) 1 .TRAIN).2.2
      + (Tensor.value env0 (Tensor.value env0 (tLoc true) 1 .TRAIN).2.1
          1 .TRAIN).2.2 = 1 := by
  have h := C2_cache_fetch_counts env0 (tLoc true) 1 .TRAIN (.TRAIN, 1)
    ({ step_num := 1, location := some loc0, cache := true }) loc0 rfl rfl rfl rfl rfl
  exact ⟨rfl, (h.1 rfl).1, (h.1 rfl).2.2.1, (h.1 rfl).2.2.2.2.1⟩


theorem takeWhile_length_le (p : Int → Bool) (l : List Int) :
    (l.takeWhile p).length ≤ l.length := by
  induction l with
  | nil => simp
  | cons a t ih =>
    by_cases h : p a = true
    · simp [List.takeWhile_cons, h]
      omega
    · simp [List.takeWhile_cons, h]

theorem getD_le_of_lt_takeWhile (L : List Int) (x : Int) (i : Nat)
    (h : i < (L.takeWhile (fun a => decide (a ≤ x))).length) : L.getD i 0 ≤ x := by
  induction L generalizing i with
  | nil => simp at h
  | cons a t ih =>
    by_cases ha : a ≤ x
    · cases i with
      | zero => simpa using ha
      | succ j =>
        simp only [List.takeWhile_cons, decide_eq_true_eq, if_pos ha,
          List.length_cons] at h
        have := ih j (by omega)
        simpa using this
    · simp [List.takeWhile_cons, ha] at h

theorem lt_getD_of_takeWhile_le (L : List Int) (x : Int)
    (hs : L.Sorted (· ≤ ·)) (j : Nat)
    (hj : (L.takeWhile (fun a => decide (a ≤ x))).length ≤ j)
    (hjl : j < L.length) : x < L.getD j 0 := by
  induction L generalizing j with
  | nil => simp at hjl
  | cons a t ih =>
    rw [List.sorted_cons] at hs
    by_cases ha : a ≤ x
    · cases j with
      | zero => simp [List.takeWhile_cons, ha] at hj
      | succ j' =>
        simp only [List.takeWhile_cons, decide_eq_true_eq, if_pos ha,
          List.length_cons] at hj
        have := ih hs.2 j' (by omega) (by simpa using hjl)
        simpa using this
    · have hxa : x < a := lt_of_not_le ha
      cases j with
      | zero => simpa using hxa
      | succ j' =>
        have hjt : j' < t.length := by simpa using hjl
        have hmem : t.getD j' 0 ∈ t := by
          rw [List.getD_eq_getElem _ _ hjt]
          exact List.getElem_mem hjt
        have := hs.1 _ hmem
        calc x < a := hxa
          _ ≤ t.getD j' 0 := this
          _ = (a :: t).getD (j' + 1) 0 := by simp

theorem bisectRightAux_eq (L : List Int) (x : Int) (hs : L.Sorted (· ≤ ·)) :
    ∀ fuel lo hi, hi ≤ L.length
      → lo ≤ (L.takeWhile (fun a => decide (a ≤ x))).length
      → (L.takeWhile (fun a => decide (a ≤ x))).length ≤ hi
      → hi - lo < fuel
      → bisectRightAux L x fuel lo hi
          = (L.takeWhile (fun a => decide (a ≤ x))).length := by
  intro fuel
  induction fuel with
  | zero =>
    intro lo hi _ _ _ hf
    omega
  | succ f ih =>
    intro lo hi hhi hlo hcnt hf
    unfold bisectRightAux
    by_cases hlt : lo < hi
    · rw [if_pos hlt]
      by_cases hx : x < L.getD ((lo + hi) / 2) 0
      · rw [if_pos hx]
        refine ih lo ((lo + hi) / 2) (by omega) hlo ?_ (by omega)
        by_contra hc
        exact absurd (getD_le_of_lt_takeWhile L x _ (by omega)) (not_le_of_lt hx)
      · rw [if_neg hx]
        refine ih ((lo + hi) / 2 + 1) hi hhi ?_ hcnt (by omega)
        by_contra hc
        exact absurd (lt_getD_of_takeWhile_le L x hs _ (by omega) (by omega)) hx
    · rw [if_neg hlt]
      omega

theorem bisect_right_eq_takeWhile (L : List Int) (x : Int)
    (hs : L.Sorted (· ≤ ·)) :
    bisect_right L x = (L.takeWhile (fun a => decide (a ≤ x))).length := by
  unfold bisect_right
  exact bisectRightAux_eq L x hs (L.length + 1) 0 L.length le_rfl
    (Nat.zero_le _) (takeWhile_length_le _ L) (by omega)

theorem take_length_takeWhile (p : Int → Bool) (l : List Int) :
    l.take ((l.takeWhile p).length) = l.takeWhile p := by
  induction l with
  | nil => simp
  | cons a t ih =>
    by_cases h : p a = true
    · simp [List.takeWhile_cons, h, ih]
    · simp [List.takeWhile_cons, h]

theorem takeWhile_eq_filter_of_sorted (L : List Int) (x : Int)
    (hs : L.Sorted (· ≤ ·)) :
    L.takeWhile (fun a => decide (a ≤ x))
      = L.filter (fun a => decide (a ≤ x)) := by
  induction L with
  | nil => rfl
  | cons a t ih =>
    rw [List.sorted_cons] at hs
    by_cases ha : a ≤ x
    · simp [List.takeWhile_cons, List.filter_cons, ha, ih hs.2]
    · simp only [List.takeWhile_cons, List.filter_cons, decide_eq_true_eq,
        if_neg ha]
      symm
      rw [List.filter_eq_nil_iff]
      intro b hb
      simp only [decide_eq_true_eq]
      intro hbx
      exact ha (le_trans (hs.1 b hb) hbx)

theorem Tensor.steps_sorted {V : Type} (t : Tensor V) (m : ModeKeys)
    (L : List Int) (h : t.steps m = some L) : L.Sorted (· ≤ ·) := by
  unfold Tensor.steps at h
  by_cases hm : m = .GLOBAL
  · rw [if_pos hm] at h
    cases h
    exact List.sorted_insertionSort _ _
  · rw [if_neg hm] at h
    cases hms : assocGet t.refreshed._mode_steps m with
    | none => rw [hms] at h; cases h
    | some ms =>
      rw [hms] at h
      cases h
      exact List.sorted_insertionSort _ _


theorem take_bisect_eq_filter (L : List Int) (x : Int) (hs : L.Sorted (· ≤ ·)) :
    L.take (bisect_right L x) = L.filter (fun a => decide (a ≤ x)) := by
  rw [bisect_right_eq_takeWhile L x hs, take_length_takeWhile,
    takeWhile_eq_filter_of_sorted L x hs]

/-- C5 is refuted at a concrete input: over TRAIN steps
`[0,1,2,3,4,5]`, `prev_steps(step=4, n=0)` returns the whole list of
steps `≤ 4` rather than the last zero (i.e. no) elements, because the
truncation branch is only taken when `n` is truthy. -/
theorem C5_cex_n_zero :
    tSteps.prev_steps 4 (some 0) .TRAIN = some [0, 1, 2, 3, 4] ∧
    tSteps.prev_steps 4 (some 0) .TRAIN ≠ some [] := by
  exact ⟨by decide, by decide⟩

/-- C5 (amended): for a tensor and mode with sorted step list `L`,
`prev_steps(step, n, mode)` computes the rightmost binary-search
insertion point of `step` into `L` and takes the prefix up to it —
exactly the elements of `L` that are `≤ step`; with `n` unset it
returns all of them, and with `n` given and positive it returns the
last `n` of them (with `n = 0` the truncation branch is skipped and all
elements are returned, see C9). -/
theorem C5_prev_steps_behaviour {V : Type} (t : Tensor V) (step : Int)
    (m : ModeKeys) (L : List Int) (h : t.steps m = some L) :
    t.prev_steps step none m = some (L.filter (fun a => decide (a ≤ step))) ∧
    ∀ k : Int, 0 < k →
      t.prev_steps step (some k) m
        = some ((L.filter (fun a => decide (a ≤ step))).drop
            ((L.filter (fun a => decide (a ≤ step))).length - k.toNat)) := by
  have hs := Tensor.steps_sorted t m L h
  have htake := take_bisect_eq_filter L step hs
  constructor
  · unfold Tensor.prev_steps
    rw [h]
    simp only [htake]
  · intro k hk
    unfold Tensor.prev_steps
    rw [h]
    simp only [htake]
    rw [if_pos (by omega : k ≠ 0)]
    unfold pySliceFrom
    rw [if_neg (by omega : ¬ (0 : Int) ≤ -k)]
    simp

/-- Witness for C5 (amended) at the spec's concrete example: over TRAIN
steps `[0,1,2,3,4,5]`, `prev_steps(4, n=2)` is `[3,4]` and
`prev_steps(4, n=None)` is `[0,1,2,3,4]`. -/
theorem C5_prev_steps_behaviour_witness :
    tSteps.steps .TRAIN = some [0, 1, 2, 3, 4, 5] ∧
    tSteps.prev_steps 4 none .TRAIN = some [0, 1, 2, 3, 4] ∧
    tSteps.prev_steps 4 (some 2) .TRAIN = some [3, 4] := by
  have h := C5_prev_steps_behaviour tSteps 4 .TRAIN [0, 1, 2, 3, 4, 5] (by decide)
  refine ⟨by decide, ?_, ?_⟩
  · rw [h.1]
    decide
  · rw [h.2 2 (by decide)]
    decide

/-- C9: `prev_steps(step, n=0, mode)` behaves identically to
`prev_steps(step, n=None, mode)` — passing `n = 0` returns the entire
list of steps `≤ step` rather than an empty list, because the
truncation branch is taken only when `n` is truthy. -/
theorem C9_prev_steps_n_zero {V : Type} (t : Tensor V) (step : Int)
    (m : ModeKeys) :
    t.prev_steps step (some 0) m = t.prev_steps step none m ∧
    ∀ L, t.steps m = some L →
      t.prev_steps step (some 0) m
        = some (L.filter (fun a => decide (a ≤ step))) := by
  constructor
  · unfold Tensor.prev_steps
    cases t.steps m with
    | none => rfl
    | some L => simp
  · intro L h
    have hs := Tensor.steps_sorted t m L h
    unfold Tensor.prev_steps
    rw [h]
    simp only [take_bisect_eq_filter L step hs]
    simp

/-- Witness for C9 at a concrete input: over TRAIN steps
`[0,1,2,3,4,5]`, `prev_steps(4, n=0)` equals `prev_steps(4, n=None)`
and is the whole list `[0,1,2,3,4]`. -/
theorem C9_prev_steps_n_zero_witness :
    tSteps.prev_steps 4 (some 0) .TRAIN = tSteps.prev_steps 4 none .TRAIN ∧
    tSteps.prev_steps 4 (some 0) .TRAIN = some [0, 1, 2, 3, 4] := by
  have h := C9_prev_steps_n_zero tSteps 4 .TRAIN
  refine ⟨h.1, ?_⟩
  rw [h.2 [0, 1, 2, 3, 4, 5] (by decide)]
  decide


theorem isEmpty_false_of_assocGet_some {K A : Type} [DecidableEq K]
    (m : List (K × A)) (k : K) (a : A) (h : assocGet m k = some a) :
    m.isEmpty = false := by
  cases m with
  | nil => simp [assocGet] at h
  | cons p rest => rfl

theorem foldl_set_red_value_fields {V : Type} (l : List ((String × Bool) × V))
    (s : Step V) :
    ((l.foldl (fun acc p => Step.set_reduction_value acc p.1.1 p.1.2 p.2) s))._value
        = s._value ∧
    ((l.foldl (fun acc p => Step.set_reduction_value acc p.1.1 p.1.2 p.2) s)).location
        = s.location ∧
    ((l.foldl (fun acc p => Step.set_reduction_value acc p.1.1 p.1.2 p.2) s)).cache
        = s.cache ∧
    ((l.foldl (fun acc p => Step.set_reduction_value acc p.1.1 p.1.2 p.2) s))._reduction_locations
        = s._reduction_locations := by
  induction l generalizing s with
  | nil => exact ⟨rfl, rfl, rfl, rfl⟩
  | cons a t ih =>
    simp only [List.foldl_cons]
    exact ih (Step.set_reduction_value s a.1.1 a.1.2 a.2)

theorem Step.reduction_value_state_fields {V : Type} (env : Env V) (s : Step V)
    (red_name : String) (ab : Bool) :
    ((Step.reduction_value env s red_name ab).2.1)._value = s._value ∧
    ((Step.reduction_value env s red_name ab).2.1).location = s.location ∧
    ((Step.reduction_value env s red_name ab).2.1).cache = s.cache ∧
    ((Step.reduction_value env s red_name ab).2.1)._reduction_locations
      = s._reduction_locations := by
  unfold Step.reduction_value Step.reduction_values
  by_cases he : s._reduction_values.isEmpty = true
  · simp only [he, if_true]
    by_cases hc : s.cache = true
    · rw [if_pos hc]
      exact foldl_set_red_value_fields
        (s._reduction_locations.map (fun p => (p.1, env.fetch_tensor_value p.2))) s
    · rw [if_neg hc]
      exact ⟨rfl, rfl, rfl, rfl⟩
  · simp only [he, if_false]
    exact ⟨rfl, rfl, rfl, rfl⟩

theorem Step.reduction_value_fst_empty {V : Type} (env : Env V) (s : Step V)
    (red_name : String) (ab : Bool) (he : s._reduction_values.isEmpty = true) :
    (Step.reduction_value env s red_name ab).1
      = (assocGet s._reduction_locations (red_name, ab)).map env.fetch_tensor_value := by
  unfold Step.reduction_value Step.reduction_values
  simp only [he, if_true]
  exact assocGet_map _ _ _

theorem Step.reduction_value_fst_nonempty {V : Type} (env : Env V) (s : Step V)
    (red_name : String) (ab : Bool) (he : s._reduction_values.isEmpty = false) :
    (Step.reduction_value env s red_name ab).1
      = assocGet s._reduction_values (red_name, ab) := by
  unfold Step.reduction_value
  simp only [he, Bool.false_eq_true, if_false]

theorem Tensor.reduction_valueBody_memval {V : Type} (env : Env V) (cache : Bool)
    (red_name : String) (ab : Bool) (s : Step V) (v : V)
    (hv : assocGet s._reduction_values (red_name, ab) = some v) :
    (Tensor.reduction_valueBody env cache red_name ab s).1 = .ok (some v) := by
  unfold Tensor.reduction_valueBody
  rcases hr : Step.reduction_value env s red_name ab with ⟨rv, s1, n1⟩
  have hrv : rv = some v := by
    have h1 := Step.reduction_value_fst_nonempty env s red_name ab
      (isEmpty_false_of_assocGet_some _ _ _ hv)
    rw [hr] at h1
    dsimp only at h1
    rw [h1, hv]
  subst hrv
  rfl

theorem Tensor.reduction_valueBody_storedloc {V : Type} (env : Env V)
    (cache : Bool) (red_name : String) (ab : Bool) (s : Step V)
    (loc : TensorLocation)
    (hv : assocGet s._reduction_values (red_name, ab) = none)
    (hl : assocGet s._reduction_locations (red_name, ab) = some loc) :
    (Tensor.reduction_valueBody env cache red_name ab s).1
      = .ok (some (env.fetch_tensor_value loc)) := by
  unfold Tensor.reduction_valueBody
  rcases hr : Step.reduction_value env s red_name ab with ⟨rv, s1, n1⟩
  have hfields := Step.reduction_value_state_fields env s red_name ab
  rw [hr] at hfields
  dsimp only at hfields
  by_cases he : s._reduction_values.isEmpty = true
  · have hrv : rv = some (env.fetch_tensor_value loc) := by
      have h1 := Step.reduction_value_fst_empty env s red_name ab he
      rw [hr] at h1
      dsimp only at h1
      rw [h1, hl]
      rfl
    subst hrv
    rfl
  · have hrv : rv = none := by
      have h1 := Step.reduction_value_fst_nonempty env s red_name ab
        (by simpa using he)
      rw [hr] at h1
      dsimp only at h1
      rw [h1, hv]
    subst hrv
    have hrl1 : Step.reduction_location s1 red_name ab = some loc := by
      unfold Step.reduction_location
      rw [hfields.2.2.2]
      exact hl
    simp only [hrl1]

theorem Tensor.reduction_valueBody_compute_mem {V : Type} (env : Env V)
    (cache : Bool) (red_name : String) (ab : Bool) (s : Step V) (v : V)
    (hrv : assocGet s._reduction_values (red_name, ab) = none)
    (hrl : assocGet s._reduction_locations (red_name, ab) = none)
    (hval : s._value = some v) :
    (Tensor.reduction_valueBody env cache red_name ab s).1
      = .ok (some (env.get_numpy_reduction red_name v ab)) := by
  unfold Tensor.reduction_valueBody
  rcases hr : Step.reduction_value env s red_name ab with ⟨rv, s1, n1⟩
  have hfields := Step.reduction_value_state_fields env s red_name ab
  rw [hr] at hfields
  dsimp only at hfields
  have hrv1 : rv = none := by
    by_cases he : s._reduction_values.isEmpty = true
    · have h1 := Step.reduction_value_fst_empty env s red_name ab he
      rw [hr] at h1
      dsimp only at h1
      rw [h1, hrl]
      rfl
    · have h1 := Step.reduction_value_fst_nonempty env s red_name ab
        (by simpa using he)
      rw [hr] at h1
      dsimp only at h1
      rw [h1, hrv]
  subst hrv1
  have hrl1 : Step.reduction_location s1 red_name ab = none := by
    unfold Step.reduction_location
    rw [hfields.2.2.2]
    exact hrl
  simp only [hrl1]
  have hsv : s1._value = some v := by rw [hfields.1, hval]
  simp only [Step.valueProp_mem env s1 v hsv]

theorem Tensor.reduction_valueBody_compute_loc {V : Type} (env : Env V)
    (cache : Bool) (red_name : String) (ab : Bool) (s : Step V)
    (loc : TensorLocation)
    (hrv : assocGet s._reduction_values (red_name, ab) = none)
    (hrl : assocGet s._reduction_locations (red_name, ab) = none)
    (hval : s._value = none) (hloc : s.location = some loc)
    (hcache : s.cache = cache) :
    (Tensor.reduction_valueBody env cache red_name ab s).1
      = .ok (some (env.get_numpy_reduction red_name (env.fetch_tensor_value loc) ab)) ∧
    ((Tensor.reduction_valueBody env cache red_name ab s).2.1)._value
      = (if cache then some (env.fetch_tensor_value loc) else none) := by
  unfold Tensor.reduction_valueBody
  rcases hr : Step.reduction_value env s red_name ab with ⟨rv, s1, n1⟩
  have hfields := Step.reduction_value_state_fields env s red_name ab
  rw [hr] at hfields
  dsimp only at hfields
  have hrv1 : rv = none := by
    by_cases he : s._reduction_values.isEmpty = true
    · have h1 := Step.reduction_value_fst_empty env s red_name ab he
      rw [hr] at h1
      dsimp only at h1
      rw [h1, hrl]
      rfl
    · have h1 := Step.reduction_value_fst_nonempty env s red_name ab
        (by simpa using he)
      rw [hr] at h1
      dsimp only at h1
      rw [h1, hrv]
  subst hrv1
  have hrl1 : Step.reduction_location s1 red_name ab = none := by
    unfold Step.reduction_location
    rw [hfields.2.2.2]
    exact hrl
  simp only [hrl1]
  have hsv : s1._value = none := by rw [hfields.1, hval]
  have hsl : s1.location = some loc := by rw [hfields.2.1, hloc]
  by_cases hc : cache = true
  · have hsc : s1.cache = true := by rw [hfields.2.2.1, hcache, hc]
    simp only [Step.valueProp_loc_cache env s1 loc hsv hsl hsc]
    have : ({ s1 with _value := some (env.fetch_tensor_value loc) } : Step V)._value
        = some (env.fetch_tensor_value loc) := rfl
    simp only [Step.valueProp_mem env _ (env.fetch_tensor_value loc) this]
    simp [hc]
  · have hc' : cache = false := by simpa using hc
    have hsc : s1.cache = false := by rw [hfields.2.2.1, hcache, hc']
    simp only [Step.valueProp_loc_nocache env s1 loc hsv hsl hsc]
    simp [hc', hsv]

theorem Tensor.reduction_valueBody_nothing {V : Type} (env : Env V)
    (cache : Bool) (red_name : String) (ab : Bool) (s : Step V)
    (hrv : assocGet s._reduction_values (red_name, ab) = none)
    (hrl : assocGet s._reduction_locations (red_name, ab) = none)
    (hval : s._value = none) (hloc : s.location = none) :
    (Tensor.reduction_valueBody env cache red_name ab s).1
      = .error .FetchOfNone := by
  unfold Tensor.reduction_valueBody
  rcases hr : Step.reduction_value env s red_name ab with ⟨rv, s1, n1⟩
  have hfields := Step.reduction_value_state_fields env s red_name ab
  rw [hr] at hfields
  dsimp only at hfields
  have hrv1 : rv = none := by
    by_cases he : s._reduction_values.isEmpty = true
    · have h1 := Step.reduction_value_fst_empty env s red_name ab he
      rw [hr] at h1
      dsimp only at h1
      rw [h1, hrl]
      rfl
    · have h1 := Step.reduction_value_fst_nonempty env s red_name ab
        (by simpa using he)
      rw [hr] at h1
      dsimp only at h1
      rw [h1, hrv]
  subst hrv1
  have hrl1 : Step.reduction_location s1 red_name ab = none := by
    unfold Step.reduction_location
    rw [hfields.2.2.2]
    exact hrl
  simp only [hrl1]
  have hsv : s1._value = none := by rw [hfields.1, hval]
  have hsl : s1.location = none := by rw [hfields.2.1, hloc]
  have hvp : Step.valueProp env s1 = (none, s1, 0) := by
    unfold Step.valueProp
    rw [hsv, hsl]
  simp only [hvp, hsl]

theorem Tensor.reduction_value_of_mem {V : Type} (env : Env V) (t : Tensor V)
    (S : Int) (M : ModeKeys) (red_name : String) (ab : Bool)
    (addr : ModeKeys × Int) (s : Step V)
    (hres : t._get_step_currently S M = some addr)
    (hstep : t.stepAt addr = some s) :
    Tensor.reduction_value env t S red_name M ab
      = ((Tensor.reduction_valueBody env t.cache red_name ab s).1,
         t.setStepAt addr (Tensor.reduction_valueBody env t.cache red_name ab s).2.1,
         (Tensor.reduction_valueBody env t.cache red_name ab s).2.2) := by
  unfold Tensor.reduction_value
  rw [Tensor.step_of_mem t S M addr hres]
  simp only [hstep]


/-- C3: for a tensor, step and mode whose step resolution succeeds,
`reduction_value(step, name, mode, abs)` resolves in priority order:
(1) an already-computed reduction value in memory on the Step is
returned; (2) else a stored reduction location is fetched from the Blob
Store; (3) else the reduction is computed from the full tensor value,
fetching the full value first when it is not in memory and retaining it
on the Step iff the cache flag is set; (4) with no value, no location
and no matching reduction the call results in an error rather than a
value. -/
theorem C3_reduction_value_tiers {V : Type} (env : Env V) (t : Tensor V)
    (S : Int) (M : ModeKeys) (red_name : String) (ab : Bool)
    (addr : ModeKeys × Int) (s : Step V)
    (hres : t._get_step_currently S M = some addr)
    (hstep : t.stepAt addr = some s)
    (hsc : s.cache = t.cache) :
    (∀ v, assocGet s._reduction_values (red_name, ab) = some v →
      (Tensor.reduction_value env t S red_name M ab).1 = .ok (some v)) ∧
    (∀ loc, assocGet s._reduction_values (red_name, ab) = none →
      assocGet s._reduction_locations (red_name, ab) = some loc →
      (Tensor.reduction_value env t S red_name M ab).1
        = .ok (some (env.fetch_tensor_value loc))) ∧
    (∀ v, assocGet s._reduction_values (red_name, ab) = none →
      assocGet s._reduction_locations (red_name, ab) = none →
      s._value = some v →
      (Tensor.reduction_value env t S red_name M ab).1
        = .ok (some (env.get_numpy_reduction red_name v ab))) ∧
    (∀ loc, assocGet s._reduction_values (red_name, ab) = none →
      assocGet s._reduction_locations (red_name, ab) = none →
      s._value = none → s.location = some loc →
      (Tensor.reduction_value env t S red_name M ab).1
        = .ok (some (env.get_numpy_reduction red_name (env.fetch_tensor_value loc) ab)) ∧
      ∃ s2, ((Tensor.reduction_value env t S red_name M ab).2.1).stepAt addr = some s2 ∧
        s2._value = (if t.cache then some (env.fetch_tensor_value loc) else none)) ∧
    (assocGet s._reduction_values (red_name, ab) = none →
      assocGet s._reduction_locations (red_name, ab) = none →
      s._value = none → s.location = none →
      ∃ e, (Tensor.reduction_value env t S red_name M ab).1 = .error e) := by
  have hmain := Tensor.reduction_value_of_mem env t S M red_name ab addr s hres hstep
  refine ⟨?_, ?_, ?_, ?_, ?_⟩
  · intro v hv
    rw [hmain]
    exact Tensor.reduction_valueBody_memval env t.cache red_name ab s v hv
  · intro loc hv hl
    rw [hmain]
    exact Tensor.reduction_valueBody_storedloc env t.cache red_name ab s loc hv hl
  · intro v hrv hrl hval
    rw [hmain]
    exact Tensor.reduction_valueBody_compute_mem env t.cache red_name ab s v hrv hrl hval
  · intro loc hrv hrl hval hloc
    have hb := Tensor.reduction_valueBody_compute_loc env t.cache red_name ab s loc
      hrv hrl hval hloc hsc
    rw [hmain]
    refine ⟨hb.1, ?_⟩
    refine ⟨(Tensor.reduction_valueBody env t.cache red_name ab s).2.1, ?_, hb.2⟩
    exact Tensor.stepAt_setStepAt t addr s _ hstep
  · intro hrv hrl hval hloc
    rw [hmain]
    exact ⟨.FetchOfNone,
      Tensor.reduction_valueBody_nothing env t.cache red_name ab s hrv hrl hval hloc⟩

/-- C4 (amended): `Tensor.steps` returns `None` for a non-GLOBAL mode
with no recorded steps and the `Step.value` property returns `None` for
a Step holding neither value nor location; at the Tensor level,
`Tensor.value` raises `TensorUnavailableForStep` rather than returning
`None` in that situation; and a reduction lookup (`Step.reduction_value`)
for a reduction that exists neither as an in-memory value nor as a
stored location legitimately returns `None`. -/
theorem C4_amended_none_behaviour {V : Type} (env : Env V) (t : Tensor V)
    (m : ModeKeys) (cache : Bool) (tname : String) (sn : Int) (s : Step V)
    (red_name : String) (ab : Bool)
    (hm : m ≠ .GLOBAL) (hnone : assocGet t.refreshed._mode_steps m = none)
    (hv : s._value = none) (hl : s.location = none)
    (hrv : assocGet s._reduction_values (red_name, ab) = none)
    (hrl : assocGet s._reduction_locations (red_name, ab) = none) :
    t.steps m = none ∧
    (Step.valueProp env s).1 = none ∧
    (∃ b, (Tensor.valueBody env cache tname sn m s).1
      = .error (.TensorUnavailableForStep tname sn m b)) ∧
    (Step.reduction_value env s red_name ab).1 = none := by
  refine ⟨?_, ?_, ?_, ?_⟩
  · unfold Tensor.steps
    rw [if_neg hm, hnone]
  · unfold Step.valueProp
    rw [hv, hl]
  · unfold Tensor.valueBody
    simp only [Step.valueProp, hv, hl]
    exact ⟨_, rfl⟩
  · by_cases he : s._reduction_values.isEmpty = true
    · rw [Step.reduction_value_fst_empty env s red_name ab he, hrl]
      rfl
    · rw [Step.reduction_value_fst_nonempty env s red_name ab (by simpa using he)]
      exact hrv

/-- Witness for C4 (amended) at a concrete input: a tensor with no
modes at all and an empty Step, whose mean-reduction lookup returns
`None`. -/
theorem C4_amended_none_behaviour_witness :
    baseT.steps .TRAIN = none ∧
    (Step.valueProp env0 { step_num := 0 : Step Int }).1 = none ∧
    (Step.reduction_value env0 ({ step_num := 0 : Step Int }) "mean" false).1
      = none := by
  have h := C4_amended_none_behaviour env0 baseT .TRAIN false "w" 0
    ({ step_num := 0 : Step Int }) "mean" false (by decide) rfl rfl rfl rfl rfl
  exact ⟨h.1, h.2.1, h.2.2.2⟩

/-- A tensor holding only a stored mean-reduction location at TRAIN
step 1, for the C3 witness. -/
def tRed : Tensor Int :=
  (baseT.add_reduction_step_lazy .TRAIN 1 "mean" false loc0).toOption.getD baseT

/-- Witness for C3 at a concrete input: a tensor whose TRAIN step 1
holds only a stored reduction location resolves the reduction through
tier (2), fetching it from the Blob Store. -/
theorem C3_reduction_value_tiers_witness :
    tRed._get_step_currently 1 .TRAIN = some (.TRAIN, 1) ∧
    (Tensor.reduction_value env0 tRed 1 "mean" .TRAIN false).1
      = .ok (some 103) := by
  have h := C3_reduction_value_tiers env0 tRed 1 .TRAIN "mean" false (.TRAIN, 1)
    ({ step_num := 1, _reduction_locations := [(("mean", false), loc0)] }) rfl rfl rfl
  refine ⟨rfl, ?_⟩
  rw [h.2.1 loc0 rfl rfl]
  rfl

end Tornasole

namespace TornasoleWriter

/-- C6 is refuted at a concrete input: constructing an Event Writer
performs Blob Store file operations — the Index Log handle is opened by
`IndexWriter.__init__` and the Record Log is created by the
`init_with_suffix` call in `EventFileWriter.__init__`. -/
theorem C6_cex_eager_create :
    (EventFileWriter.init "logdir" "tr" "w0" 0 5 120 "").2 ≠ [] ∧
    ((EventFileWriter.init "logdir" "tr" "w0" 0 5 120 "").2).length = 2 ∧
    (EventFileWriter.init "logdir" "tr" "w0" 0 5 120 "").2
      = [WriterOp.openIndexFile "logdir/tr/index/000000000005_w0_0000.json",
         WriterOp.openRecordFile
           "logdir/tr/events/000000000005/000000000005_w0_0000.tfevents"] ∧
    ((EventFileWriter.init "logdir" "tr" "w0" 0 5 120
        "").1)._ev_writer.indexwriter.writer.isSome = true ∧
    ((EventFileWriter.init "logdir" "tr" "w0" 0 5 120
        "").1)._ev_writer.tfrecord_writer.isSome = true := by
  exact ⟨by decide, by decide, by decide, rfl, rfl⟩

/-- C6 (amended): constructing an Event Writer eagerly opens both logs
rather than lazily — the construction trace is exactly one Index Log
open (from `IndexWriter.__init__`) followed by one Record Log open
(from the unconditional `init_with_suffix` in
`EventFileWriter.__init__`), and both handles exist on the constructed
state; the lazy re-open code paths only serve a writer that was closed
(`IndexWriter.add_index`) or never initialized
(`EventsWriter._write_serialized_event`). -/
theorem C6_amended_eager_create (logdir trial worker : String)
    (rank step flush_secs : Nat) (suffix : String) :
    (EventFileWriter.init logdir trial worker rank step flush_secs suffix).2
      = [WriterOp.openIndexFile
           (get_index_key_for_step (logdir ++ "/" ++ trial) step worker rank),
         WriterOp.openRecordFile
           (get_event_key_for_step (logdir ++ "/" ++ trial) step worker rank)] ∧
    ((EventFileWriter.init logdir trial worker rank step flush_secs
        suffix).1)._ev_writer.tfrecord_writer.isSome = true ∧
    ((EventFileWriter.init logdir trial worker rank step flush_secs
        suffix).1)._ev_writer.indexwriter.writer.isSome = true := by
  exact ⟨rfl, rfl, rfl⟩

theorem IndexWriter.close_writer (iw : IndexWriterSt) :
    (IndexWriter.close iw).writer = none := by
  unfold IndexWriter.close
  cases h : iw.writer with
  | some _ => rfl
  | none => exact h

theorem EventsWriter.flush_indexwriter (ew : EventsWriterSt) :
    (EventsWriter.flush ew).indexwriter = ew.indexwriter := by
  unfold EventsWriter.flush
  split <;> rfl

theorem EventsWriter.close_indexwriter (ew : EventsWriterSt) :
    (EventsWriter.close ew).indexwriter = ew.indexwriter := by
  simp only [EventsWriter.close]
  split <;> rw [EventsWriter.flush_indexwriter]

theorem EventsWriter.close_tfrecord (ew : EventsWriterSt) :
    (EventsWriter.close ew).tfrecord_writer = none := by
  simp only [EventsWriter.close]
  split
  · rfl
  · next h => exact h

theorem workerRun_append_sentinel (ew : EventsWriterSt) (q : List QItem)
    (clock : List Bool) (h : QItem.sentinel ∉ q) :
    workerRun ew (q ++ [QItem.sentinel]) clock = drainAll ew q clock := by
  induction q generalizing ew clock with
  | nil => rfl
  | cons a t ih =>
    cases a with
    | sentinel => exact absurd (List.mem_cons_self _ _) h
    | plain e =>
      unfold workerRun drainAll
      exact ih _ _ (fun hc => h (List.mem_cons_of_mem _ hc))
    | indexArgs e tn =>
      unfold workerRun drainAll
      exact ih _ _ (fun hc => h (List.mem_cons_of_mem _ hc))

/-- C7: the Async Write Pipeline obeys OPEN → CLOSED → OPEN.  `close()`
on an open pipeline enqueues the terminal sentinel, drains the whole
pending queue in FIFO order through the EventsWriter, then flushes and
closes both the Index Log and the Record Log, and marks the pipeline
closed with the worker exited; `reopen()` after `close()` marks the
pipeline open again with a fresh worker against the same underlying
writer; `reopen()` on a never-closed pipeline is a no-op. -/
theorem C7_close_reopen_protocol (p : EventFileWriterSt) (clock : List Bool)
    (hopen : p._closed = false) (hq : QItem.sentinel ∉ p._event_queue) :
    (EventFileWriter.close p clock)._closed = true ∧
    (EventFileWriter.close p clock)._workerAlive = false ∧
    (EventFileWriter.close p clock)._event_queue = [] ∧
    (EventFileWriter.close p clock)._ev_writer.indexwriter.writer = none ∧
    (EventFileWriter.close p clock)._ev_writer.tfrecord_writer = none ∧
    (EventFileWriter.close p clock)._ev_writer
      = EventsWriter.close
          { EventsWriter.flush (drainAll p._ev_writer p._event_queue clock) with
            indexwriter := IndexWriter.close
              (EventsWriter.flush
                (drainAll p._ev_writer p._event_queue clock)).indexwriter } ∧
    (EventFileWriter.reopen (EventFileWriter.close p clock))._closed = false ∧
    (EventFileWriter.reopen (EventFileWriter.close p clock))._workerAlive = true ∧
    (EventFileWriter.reopen (EventFileWriter.close p clock))._ev_writer
      = (EventFileWriter.close p clock)._ev_writer ∧
    EventFileWriter.reopen p = p := by
  have hclose : EventFileWriter.close p clock =
      { p with
        _event_queue := [],
        _ev_writer := EventsWriter.close
          { EventsWriter.flush (drainAll p._ev_writer p._event_queue clock) with
            indexwriter := IndexWriter.close
              (EventsWriter.flush
                (drainAll p._ev_writer p._event_queue clock)).indexwriter },
        _closed := true, _workerAlive := false } := by
    unfold EventFileWriter.close EventFileWriter.flushP EventFileWriter.write_event
    rw [hopen]
    simp only [Bool.false_eq_true, if_false]
    rw [workerRun_append_sentinel _ _ _ hq]
  rw [hclose]
  refine ⟨rfl, rfl, rfl, ?_, ?_, rfl, ?_, ?_, ?_, ?_⟩
  · rw [EventsWriter.close_indexwriter]
    exact IndexWriter.close_writer _
  · exact EventsWriter.close_tfrecord _
  · rfl
  · rfl
  · rfl
  · unfold EventFileWriter.reopen
    rw [hopen]
    rfl

/-- A concretely constructed pipeline with one pending indexed write,
for the C7 witness. -/
def pW : EventFileWriterSt :=
  EventFileWriter.write_event (EventFileWriter.init "l" "t" "w" 0 5 120 "").1
    (QItem.indexArgs "ev" "tensor")

/-- Witness for C7 at a concrete input: closing the concrete open
pipeline `pW` marks it closed with both logs closed and the worker
exited, reopening it marks it open again over the same writer, and
reopening the never-closed `pW` is a no-op. -/
theorem C7_close_reopen_protocol_witness :
    (EventFileWriter.close pW [])._closed = true ∧
    (EventFileWriter.close pW [])._ev_writer.indexwriter.writer = none ∧
    (EventFileWriter.close pW [])._ev_writer.tfrecord_writer = none ∧
    (EventFileWriter.reopen (EventFileWriter.close pW []))._closed = false ∧
    (EventFileWriter.reopen (EventFileWriter.close pW []))._ev_writer
      = (EventFileWriter.close pW [])._ev_writer ∧
    EventFileWriter.reopen pW = pW := by
  have h := C7_close_reopen_protocol pW [] rfl (by decide)
  exact ⟨h.1, h.2.2.2.1, h.2.2.2.2.1, h.2.2.2.2.2.2.1, h.2.2.2.2.2.2.2.2.1,
    h.2.2.2.2.2.2.2.2.2⟩

end TornasoleWriter

namespace TornasoleFile

theorem get_temp_path_ne (smPath file_path : String) :
    get_temp_path smPath file_path ≠ file_path := by
  unfold get_temp_path
  by_cases hb : smPath.toList.isPrefixOf (dirname file_path).toList = true
  · rw [if_pos hb]
    intro h
    have hlen := congrArg String.length h
    rw [String.length_append] at hlen
    have h4 : String.length ".tmp" = 4 := by decide
    omega
  · rw [if_neg hb]
    by_cases hs : 0 < file_path.length ∧ file_path.toList.headD ' ' = '/'
    · rw [if_pos hs]
      unfold osJoinTmp
      by_cases h2 : (String.mk (file_path.toList.drop 1)).toList.headD ' ' = '/'
      · rw [if_pos h2]
        intro h
        have hlen := congrArg String.length h
        have hmk : (String.mk (file_path.toList.drop 1)).length
            = file_path.length - 1 := by
          show (file_path.toList.drop 1).length = file_path.length - 1
          rw [List.length_drop]
          rfl
        rw [hmk] at hlen
        omega
      · rw [if_neg h2]
        intro h
        have hlen := congrArg String.length h
        rw [String.length_append] at hlen
        have hmk : (String.mk (file_path.toList.drop 1)).length
            = file_path.length - 1 := by
          show (file_path.toList.drop 1).length = file_path.length - 1
          rw [List.length_drop]
          rfl
        rw [hmk] at hlen
        have h5 : String.length "/tmp/" = 5 := by decide
        omega
    · rw [if_neg hs]
      unfold osJoinTmp
      by_cases h2 : file_path.toList.headD ' ' = '/'
      · exfalso
        rcases Nat.eq_zero_or_pos file_path.length with h0 | h0
        · have hnil : file_path.toList = [] := by
            have : file_path.toList.length = 0 := h0
            exact List.length_eq_zero.mp this
          rw [hnil] at h2
          simp at h2
        · exact hs ⟨h0, h2⟩
      · rw [if_neg h2]
        intro h
        have hlen := congrArg String.length h
        rw [String.length_append] at hlen
        have h5 : String.length "/tmp/" = 5 := by decide
        omega

theorem pyOpen_other (fs : Fs) (p : String) (mode : String) (q : String)
    (hq : q ≠ p) : Tornasole.assocGet (pyOpen fs p mode) q
      = Tornasole.assocGet fs q := by
  unfold pyOpen
  split
  · exact Tornasole.assocGet_set_ne _ _ _ _ hq
  · split
    · exact Tornasole.assocGet_set_ne _ _ _ _ hq
    · rfl

theorem pyOpen_self_write (fs : Fs) (p : String) (mode : String)
    (hm : mode ∈ WRITE_MODES) :
    (Tornasole.assocGet (pyOpen fs p mode) p).isSome = true := by
  fin_cases hm <;>
    simp [pyOpen, Tornasole.assocGet_set_self]

theorem fsErase_self (fs : Fs) (p : String) :
    Tornasole.assocGet (fsErase fs p) p = none := by
  induction fs with
  | nil => rfl
  | cons q rest ih =>
    obtain ⟨k, v⟩ := q
    by_cases hk : k = p
    · simp [fsErase, hk] at ih ⊢
      exact ih
    · simp only [fsErase, List.filter_cons]
      rw [if_pos (by simpa using hk)]
      show (if k = p then some v else Tornasole.assocGet (fsErase rest p) p) = none
      rw [if_neg hk]
      exact ih

theorem fsErase_other (fs : Fs) (p q : String) (hq : q ≠ p) :
    Tornasole.assocGet (fsErase fs p) q = Tornasole.assocGet fs q := by
  induction fs with
  | nil => rfl
  | cons e rest ih =>
    obtain ⟨k, v⟩ := e
    by_cases hk : k = p
    · subst hk
      simp only [fsErase, List.filter_cons]
      rw [if_neg (by simp)]
      show Tornasole.assocGet (fsErase rest k) q
          = if k = q then some v else Tornasole.assocGet rest q
      rw [if_neg (fun he => hq he.symm)]
      exact ih
    · simp only [fsErase, List.filter_cons]
      rw [if_pos (by simpa using hk)]
      show (if k = q then some v else Tornasole.assocGet (fsErase rest p) q)
          = if k = q then some v else Tornasole.assocGet rest q
      by_cases hkq : k = q
      · rw [if_pos hkq, if_pos hkq]
      · rw [if_neg hkq, if_neg hkq]
        exact ih

theorem writeFold_other (st : TSAccessFileSt) (fs : Fs) (ws : List String)
    (q : String) (hq : q ≠ st.acc_path) :
    Tornasole.assocGet (writeFold st fs ws) q = Tornasole.assocGet fs q := by
  induction ws generalizing fs with
  | nil => rfl
  | cons w t ih =>
    unfold writeFold at ih ⊢
    rw [List.foldl_cons]
    rw [ih]
    unfold TSAccessFile.write
    exact Tornasole.assocGet_set_ne _ _ _ _ hq

theorem writeFold_acc (st : TSAccessFileSt) (fs : Fs) (ws : List String)
    (c : String) (h : Tornasole.assocGet fs st.acc_path = some c) :
    Tornasole.assocGet (writeFold st fs ws) st.acc_path
      = some (ws.foldl (fun a b => a ++ b) c) := by
  induction ws generalizing fs c with
  | nil => exact h
  | cons w t ih =>
    unfold writeFold at ih ⊢
    rw [List.foldl_cons, List.foldl_cons]
    apply ih
    unfold TSAccessFile.write
    rw [h]
    simp only [Option.getD_some]
    exact Tornasole.assocGet_set_self _ _ _

end TornasoleFile

namespace TornasoleFile

/-- C8: for every local file opened through the access layer in a
write/append mode, the accessor is opened at the temp path (which
differs from the final path), the final path's content is untouched by
any sequence of writes, and only `close()` moves the temp file onto the
final path — which then carries exactly the initial temp content
followed by all written bytes, the temp path disappearing. -/
theorem C8_temp_write_atomic_move (smPath : String) (fs : Fs)
    (path mode : String) (ws : List String) (hm : mode ∈ WRITE_MODES) :
    (initSt smPath fs path mode).acc_path = get_temp_path smPath path ∧
    get_temp_path smPath path ≠ path ∧
    Tornasole.assocGet (afterWrites smPath fs path mode ws) path
      = Tornasole.assocGet fs path ∧
    Tornasole.assocGet (afterClose smPath fs path mode ws) path
      = some (ws.foldl (fun a b => a ++ b)
          ((Tornasole.assocGet (initFs smPath fs path mode)
             (get_temp_path smPath path)).getD "")) ∧
    Tornasole.assocGet (afterClose smPath fs path mode ws)
        (get_temp_path smPath path) = none := by
  have hne := get_temp_path_ne smPath path
  have hini : TSAccessFile.init smPath fs path mode
      = ({ path := path, mode := mode,
           temp_path := some (get_temp_path smPath path),
           acc_path := get_temp_path smPath path },
         pyOpen fs (get_temp_path smPath path) mode) := by
    unfold TSAccessFile.init
    rw [if_pos hm]
  have hstv : initSt smPath fs path mode
      = { path := path, mode := mode,
          temp_path := some (get_temp_path smPath path),
          acc_path := get_temp_path smPath path } := by
    unfold initSt
    rw [hini]
  have hfs0 : initFs smPath fs path mode
      = pyOpen fs (get_temp_path smPath path) mode := by
    unfold initFs
    rw [hini]
  have hacc : (initSt smPath fs path mode).acc_path
      = get_temp_path smPath path := by rw [hstv]
  have hsome := pyOpen_self_write fs (get_temp_path smPath path) mode hm
  rw [← hfs0] at hsome
  rcases ho : Tornasole.assocGet (initFs smPath fs path mode)
      (get_temp_path smPath path) with _ | c0
  · rw [ho] at hsome
    simp at hsome
  · have hacc0 : Tornasole.assocGet (initFs smPath fs path mode)
        (initSt smPath fs path mode).acc_path = some c0 := by
      rw [hacc]
      exact ho
    have hC := writeFold_acc (initSt smPath fs path mode)
      (initFs smPath fs path mode) ws c0 hacc0
    rw [hacc] at hC
    have hCW : Tornasole.assocGet (afterWrites smPath fs path mode ws)
        (get_temp_path smPath path)
        = some (ws.foldl (fun a b => a ++ b) c0) := hC
    have hclose : afterClose smPath fs path mode ws
        = Tornasole.assocSet
            (fsErase (afterWrites smPath fs path mode ws)
              (get_temp_path smPath path))
            path (ws.foldl (fun a b => a ++ b) c0) := by
      unfold afterClose TSAccessFile.close
      rw [hstv]
      rw [if_pos hm]
      show (match Tornasole.assocGet (afterWrites smPath fs path mode ws)
          (get_temp_path smPath path) with
        | some content =>
          Tornasole.assocSet
            (fsErase (afterWrites smPath fs path mode ws)
              (get_temp_path smPath path)) path content
        | none => afterWrites smPath fs path mode ws) = _
      rw [hCW]
    refine ⟨hacc, hne, ?_, ?_, ?_⟩
    · unfold afterWrites
      rw [writeFold_other _ _ _ _ (by rw [hacc]; exact fun h => hne h.symm)]
      rw [hfs0]
      exact pyOpen_other _ _ _ _ (fun h => hne h.symm)
    · rw [hclose]
      rw [Tornasole.assocGet_set_self]
      rfl
    · rw [hclose]
      rw [Tornasole.assocGet_set_ne _ _ _ _ hne]
      exact fsErase_self _ _

/-- Witness for C8 at a concrete input: opening `/a/b` in mode `a+`
over the empty filesystem writes to `/tmp/a/b`; nothing exists at
`/a/b` after the writes `x`, `y`, and after close `/a/b` holds `xy`
while the temp file is gone. -/
theorem C8_temp_write_atomic_move_witness :
    "a+" ∈ WRITE_MODES ∧
    (initSt "/opt/ml" [] "/a/b" "a+").acc_path = "/tmp/a/b" ∧
    Tornasole.assocGet (afterWrites "/opt/ml" [] "/a/b" "a+" ["x", "y"]) "/a/b"
      = none ∧
    Tornasole.assocGet (afterClose "/opt/ml" [] "/a/b" "a+" ["x", "y"]) "/a/b"
      = some "xy" ∧
    Tornasole.assocGet (afterClose "/opt/ml" [] "/a/b" "a+" ["x", "y"]) "/tmp/a/b"
      = none := by
  have h := C8_temp_write_atomic_move "/opt/ml" [] "/a/b" "a+" ["x", "y"]
    (by decide)
  have hk : get_temp_path "/opt/ml" "/a/b" = "/tmp/a/b" := by decide
  refine ⟨by decide, ?_, ?_, ?_, ?_⟩
  · rw [h.1, hk]
  · rw [h.2.2.1]
    rfl
  · rw [h.2.2.2.1]
    decide
  · have h5 := h.2.2.2.2
    rw [hk] at h5
    exact h5

end TornasoleFile
